import Mathlib

/-!
# Lattice CrossLink FPGA manager over I2C: configuration protocol

A shallow embedding of `drivers/fpga/crosslink-i2c.c`.

The driver talks to three collaborators that it does not implement: the I2C
bus (`i2c_transfer`), the kernel heap (`kzalloc` / `kfree`) and the reset
GPIO line.  They are modelled by a `World`: the answers of the bus and of
the heap are oracles indexed by the serial number of the call, and every call
the driver makes is appended to a trace.  Since the driver is sequential and
deterministic, quantifying over all oracles covers every behaviour of the
collaborators.  The allocator refuses every request above `kmalloc_max`
(KMALLOC_MAX_SIZE).  The `u32` variables that receive a read are
uninitialised in the source: a transfer that stores fewer than 4 bytes leaves
the remaining bytes as they were (`stale`).

C integers: `int` is a 32-bit two's complement integer (`wrap32`), the
`len` field of `struct i2c_msg` is a `__u16` (`u16`), `size_t` is 64 bits
wide (`size_t`).  Bytes are natural numbers.
-/

namespace Crosslink

/-! ## C integer arithmetic -/

def INT_MIN : Int := -2147483648
def INT_MAX : Int := 2147483647

/-- Value of a mathematical integer once stored in a C `int`
(32 bits, two's complement, wrapping). -/
@[irreducible] def wrap32 (x : Int) : Int := (x + 2147483648) % 4294967296 - 2147483648

/-- Value of an integer once stored in a `__u16`. -/
@[irreducible] def u16 (x : Int) : Nat := (x % 65536).toNat

/-- Value of an integer once stored in a `size_t` (64 bits, unsigned). -/
@[irreducible] def size_t (x : Int) : Nat := (x % 18446744073709551616).toNat

/-- An integer that is representable in a C `int`. -/
def in_int (x : Int) : Prop := INT_MIN ≤ x ∧ x ≤ INT_MAX

instance (x : Int) : Decidable (in_int x) := by
  unfold in_int; infer_instance

/-- Kernel macro `DIV_ROUND_UP(n, d)`, that is `(((n) + (d) - 1) / (d))`, on
`int` operands: C division truncates toward zero. -/
@[irreducible] def DIV_ROUND_UP (n d : Int) : Int :=
  wrap32 (Int.tdiv (wrap32 (wrap32 (n + d) - 1)) d)

/-- Every value `DIV_ROUND_UP(n, d)` computes on its way is representable in
an `int`: the sum `n + d`, the difference `n + d - 1` and the quotient. -/
def DIV_ROUND_UP_in_range (n d : Int) : Prop :=
  in_int (n + d) ∧ in_int (n + d - 1) ∧ in_int (Int.tdiv (n + d - 1) d)

instance (n d : Int) : Decidable (DIV_ROUND_UP_in_range n d) := by
  unfold DIV_ROUND_UP_in_range; infer_instance

def U16_MAX : Int := 65535

/-! ## Constants of the driver -/

def CROSSLINK_IDCODE : Nat := 0x43002C01
def CROSSLINK_RESET_RETRY_CNT : Nat := 2

def isc_enable : List Nat := [0xC6, 0x00, 0x00]
def isc_erase : List Nat := [0x0E, 0x01, 0x00, 0x00]
def isc_disable : List Nat := [0x26, 0x00, 0x00, 0x00]
def idcode_pub : List Nat := [0xE0, 0x00, 0x00, 0x00]
def lsc_init : List Nat := [0x46, 0x00, 0x00, 0x00]
def lsc_bitstream_burst : List Nat := [0x7A, 0x00, 0x00, 0x00]
def lsc_read_status : List Nat := [0x3C, 0x00, 0x00, 0x00]
def activation_msg : List Nat := [0xA4, 0xC6, 0xF4, 0x8A]

/-- Kernel macro `BIT(n)`. -/
def BIT (n : Nat) : Nat := 1 <<< n

def STATUS_DONE : Nat := BIT 16
def STATUS_BUSY : Nat := BIT 20
def STATUS_FAIL : Nat := BIT 21

def ENOMEM : Int := 12
def ENODEV : Int := 19
def EIO : Int := 5

/-- Flags of `struct i2c_msg` (linux/i2c.h). -/
def I2C_M_RD : Nat := 0x0001
def I2C_M_NOSTART : Nat := 0x4000

/-- Size in bytes of `struct i2c_msg` on a 64-bit kernel. -/
def sizeof_i2c_msg : Nat := 16

/-! ## Data model -/

/-- One message of an I2C transfer.  `buf` holds the `len` bytes the message
points at when it is a write, and is empty for a read (the bytes read come
back in the reply of the bus). -/
structure i2c_msg where
  addr : Nat
  flags : Nat
  len : Nat
  buf : List Nat
deriving DecidableEq, Repr

structure i2c_client where
  addr : Nat
deriving DecidableEq, Repr

structure crosslink_fpga_priv where
  dev : i2c_client
  bistream_loaded : Bool
deriving DecidableEq, Repr

/-- Answer of the bus to one `i2c_transfer`: the return value (negative
errno on failure) and the bytes stored into the read buffer, if any. -/
structure Reply where
  ret : Int
  rx : List Nat
deriving DecidableEq, Repr

/-- What the driver did to its collaborators, in program order. -/
inductive Event where
  | gpio (value : Nat)
  | mdelay (ms : Nat)
  | xfer (msgs : List i2c_msg) (num : Int) (ret : Int)
  | kzalloc (size : Nat) (ptr : Option Nat)
  | kfree (ptr : Option Nat)
  | devm_kzalloc (ptr : Option Nat)
deriving DecidableEq, Repr

/-- The collaborators.  `bus n` is the answer to the `n`-th `i2c_transfer`,
`heap n` tells whether the `n`-th `kzalloc` succeeds (both counted from 0);
`gpiod_get` and `mgr_register` are the results of `devm_gpiod_get` (0 or
the `PTR_ERR` code) and of `fpga_mgr_register`.  `kmalloc_max` is the largest
size the allocator grants (KMALLOC_MAX_SIZE of the kernel the driver is built
into).  `stale n` is what the uninitialised `u32` that receives the read of
the `n`-th transfer holds before the transfer. -/
structure World where
  bus : Nat → Reply
  heap : Nat → Bool
  kmalloc_max : Nat
  stale : Nat → Nat
  gpiod_get : Int
  mgr_register : Int
  nxfer : Nat
  nalloc : Nat
  trace : List Event

/-- Byte `i` of a `u32` on a little-endian machine. -/
def byte_of (x i : Nat) : Nat := x / 256 ^ i % 256

/-- Byte `i` of a 4-byte read buffer after a transfer that stored the bytes
`rx` at its start: the byte stored, or the byte the buffer held before when
the transfer stored fewer than `i + 1` bytes. -/
def byte_after (stale : Nat) (rx : List Nat) (i : Nat) : Nat :=
  match rx.get? i with
  | some b => b % 256
  | none => byte_of stale i

/-- Value of an uninitialised `u32` holding `stale` once a transfer has
stored the bytes `rx` through a `u8 *` to it (little-endian, at most 4 bytes
are stored). -/
def read_u32 (stale : Nat) (rx : List Nat) : Nat :=
  byte_after stale rx 0 + byte_after stale rx 1 * 256 + byte_after stale rx 2 * 65536
    + byte_after stale rx 3 * 16777216

def gpiod_set_value_cansleep (value : Nat) (w : World) : World :=
  { w with trace := w.trace ++ [Event.gpio value] }

def mdelay (ms : Nat) (w : World) : World :=
  { w with trace := w.trace ++ [Event.mdelay ms] }

/-- The call `i2c_transfer(adapter, msgs, num)`; `msgs` are the messages
handed over. -/
def i2c_transfer (msgs : List i2c_msg) (num : Int) (w : World) : Reply × World :=
  let r := w.bus w.nxfer
  (r, { w with nxfer := w.nxfer + 1, trace := w.trace ++ [Event.xfer msgs num r.ret] })

/-- The `n`-th `kzalloc`, asked for `size` bytes, returns a buffer: the heap
grants it and the size is within the limit `kmax` of the allocator. -/
def granted (heap : Nat → Bool) (kmax n size : Nat) : Bool :=
  heap n && decide (size ≤ kmax)

/-- The call `kzalloc(size, GFP_KERNEL)`: `none` is the NULL pointer, a
buffer obtained is named by the serial number of the call.  A request larger
than `kmalloc_max` is refused; a smaller one is granted or not. -/
def kzalloc (size : Nat) (w : World) : Option Nat × World :=
  let p := if granted w.heap w.kmalloc_max w.nalloc size then some w.nalloc else none
  (p, { w with nalloc := w.nalloc + 1, trace := w.trace ++ [Event.kzalloc size p] })

def kfree (ptr : Option Nat) (w : World) : World :=
  { w with trace := w.trace ++ [Event.kfree ptr] }

/-- The call `devm_kzalloc`: a device-managed buffer, released by the
device core and never by the driver. -/
def devm_kzalloc (w : World) : Option Nat × World :=
  let p := if w.heap w.nalloc then some w.nalloc else none
  (p, { w with nalloc := w.nalloc + 1, trace := w.trace ++ [Event.devm_kzalloc p] })

/-- A write message as the driver builds it after `memset(msg, 0, ...)`. -/
def write_msg (client : i2c_client) (cmd : List Nat) : i2c_msg :=
  { addr := client.addr, flags := 0, len := cmd.length, buf := cmd }

/-- A read message of `len` bytes. -/
def read_msg (client : i2c_client) (len : Nat) : i2c_msg :=
  { addr := client.addr, flags := I2C_M_RD, len := len, buf := [] }

/-! ## The driver -/

/-- One reset sequence (`crosslink_fpga_reset`): reset line active, ACTIVATE,
reset line released, 10 ms, ISC_ENABLE, READ_IDCODE with a 4-byte read, and
the comparison of the value read with `CROSSLINK_IDCODE`. -/
def crosslink_fpga_reset (priv : crosslink_fpga_priv) (w : World) : Int × World :=
  let client := priv.dev
  let w := gpiod_set_value_cansleep 1 w
  let (r, w) := i2c_transfer [write_msg client activation_msg] 1 w
  if r.ret < 0 then (r.ret, w) else
  let w := gpiod_set_value_cansleep 0 w
  let w := mdelay 10 w
  let (r, w) := i2c_transfer [write_msg client isc_enable] 1 w
  if r.ret < 0 then (r.ret, w) else
  let stale := w.stale w.nxfer
  let (r, w) := i2c_transfer [write_msg client idcode_pub, read_msg client 4] 2 w
  if r.ret < 0 then (r.ret, w) else
  let idcode := read_u32 stale r.rx
  if idcode ≠ CROSSLINK_IDCODE then (-ENODEV, w) else
  (0, w)

/-- The loop `for (i = 0; i < cnt; i++) { ret = crosslink_fpga_reset(priv);
if (ret == 0) break; }` on the `cnt - i` iterations still to run; `ret` is
the value the variable holds on entry. -/
def reset_retry (priv : crosslink_fpga_priv) : Nat → Int → World → Int × World
  | 0, ret, w => (ret, w)
  | n + 1, _, w =>
    let (ret, w) := crosslink_fpga_reset priv w
    if ret = 0 then (ret, w) else reset_retry priv n ret w

/-- The write-init callback (`crosslink_fpga_ops_write_init`): the reset loop,
then the erase phase.  The source fills `msg[0]` with `isc_enable` and tests
`ret < 0` without a transfer in between; `ret` is still the result of the
loop there. -/
def crosslink_fpga_ops_write_init (priv : crosslink_fpga_priv) (w : World) : Int × World :=
  let (ret, w) := reset_retry priv CROSSLINK_RESET_RETRY_CNT 0 w
  if ret ≠ 0 then (ret, w) else
  if ret < 0 then (ret, w) else
  let w := mdelay 1 w
  let (r, w) := i2c_transfer [write_msg priv.dev isc_erase] 1 w
  if r.ret < 0 then (r.ret, w) else
  let w := mdelay 50 w
  (0, w)

/-- The loop of `crosslink_fpga_ops_write` that fills `bitstream_msg`, from
the state `(i, msglen)`:

    for (i = 0; i < msgnum; i++) {
        bitstream_msg[i].addr = client->addr;
        bitstream_msg[i].buf  = msgbuf + (i * maxlen);
        bitstream_msg[i].len  = msglen > maxlen ? maxlen : msglen;
        if (i > 0) bitstream_msg[i].flags = I2C_M_NOSTART;
        msglen -= maxlen;
    }

`mem` is the memory at `msgbuf`; the array was zeroed by `kzalloc`, so the
flags of entry 0 are 0.  The first argument bounds the number of iterations. -/
def fill_bitstream_msg (client : i2c_client) (mem : List Nat) (maxlen msgnum : Int) :
    Nat → Int → Int → List i2c_msg
  | 0, _, _ => []
  | fuel + 1, i, msglen =>
    if i < msgnum then
      let off := wrap32 (i * maxlen)
      let len := u16 (if msglen > maxlen then maxlen else msglen)
      { addr := client.addr
        flags := if i > 0 then I2C_M_NOSTART else 0
        len := len
        buf := (mem.drop off.toNat).take len } ::
        fill_bitstream_msg client mem maxlen msgnum fuel (wrap32 (i + 1))
          (wrap32 (msglen - maxlen))
    else []

/-- The messages of the burst write: the array `bitstream_msg` once the loop
has run, for an image `buf` of `count` bytes. -/
def bitstream_msgs (client : i2c_client) (buf : List Nat) (count : Nat) : List i2c_msg :=
  let msglen := wrap32 (size_t ((count : Int) + 4))
  let maxlen := U16_MAX
  let msgnum := DIV_ROUND_UP msglen maxlen
  -- memcpy(msgbuf, lsc_bitstream_burst, 4); memcpy(msgbuf + 4, buf, count);
  let mem := lsc_bitstream_burst.take 4 ++ buf.take count
  fill_bitstream_msg client mem maxlen msgnum msgnum.toNat 0 msglen

/-- The write callback (`crosslink_fpga_ops_write`) for an image `buf` of
`count` bytes.  `msgbuf` is allocated twice, the first time in its
declaration. -/
def crosslink_fpga_ops_write (priv : crosslink_fpga_priv) (buf : List Nat) (count : Nat)
    (w : World) : Int × World :=
  let client := priv.dev
  let (_, w) := kzalloc (size_t ((count : Int) + 4)) w
  let msglen := wrap32 (size_t ((count : Int) + 4))
  let maxlen := U16_MAX
  let msgnum := DIV_ROUND_UP msglen maxlen
  let (msgbuf, w) := kzalloc (size_t ((count : Int) + 4)) w
  if msgbuf = none then (-ENOMEM, w) else
  let (bitstream_msg, w) := kzalloc (size_t ((sizeof_i2c_msg : Int) * msgnum)) w
  if bitstream_msg = none then (-ENOMEM, w) else
  let (r, w) := i2c_transfer [write_msg client lsc_init] 1 w
  if r.ret < 0 then (r.ret, w) else
  let w := mdelay 100 w
  let (r, w) := i2c_transfer (bitstream_msgs client buf count) msgnum w
  if r.ret < 0 then (r.ret, w) else
  let stale := w.stale w.nxfer
  let (r, w) := i2c_transfer [write_msg client lsc_read_status, read_msg client 4] 2 w
  if r.ret < 0 then (r.ret, w) else
  let status := read_u32 stale r.rx
  let w := kfree msgbuf w
  let w := kfree bitstream_msg w
  if status &&& STATUS_DONE = 0 then (- EIO, w) else
  (0, w)

/-- The write-complete callback (`crosslink_fpga_ops_write_complete`):
ISC_DISABLE. -/
def crosslink_fpga_ops_write_complete (priv : crosslink_fpga_priv) (w : World) :
    Int × World :=
  let (r, w) := i2c_transfer [write_msg priv.dev isc_disable] 1 w
  if r.ret < 0 then (r.ret, w) else
  (0, w)

/-- The probe (`crosslink_fpga_probe`): the private data, the reset GPIO, the
reset loop, the registration with the FPGA manager. -/
def crosslink_fpga_probe (client : i2c_client) (w : World) : Int × World :=
  let (p, w) := devm_kzalloc w
  if p = none then (-ENOMEM, w) else
  let priv : crosslink_fpga_priv := { dev := client, bistream_loaded := false }
  if w.gpiod_get < 0 then (w.gpiod_get, w) else
  let (ret, w) := reset_retry priv CROSSLINK_RESET_RETRY_CNT 0 w
  if ret ≠ 0 then (ret, w) else
  (w.mgr_register, w)

/-! ## Observations on the trace -/

/-- The events a call appended to the trace of the world `w` it started in. -/
def events_since (w w' : World) : List Event := w'.trace.drop w.trace.length

/-- The message lists of the transfers of a trace, in order. -/
def transfers : List Event → List (List i2c_msg)
  | [] => []
  | Event.xfer msgs _ _ :: t => msgs :: transfers t
  | _ :: t => transfers t

/-- The messages handed to the transport for the burst write of a call of
`crosslink_fpga_ops_write`, given the events of the call: those of its
second transfer, when there is one. -/
def burst_transfer (evs : List Event) : Option (List i2c_msg) := (transfers evs)[1]?

/-- Sum of the length fields of a list of messages. -/
def total_len (msgs : List i2c_msg) : Nat := (msgs.map (fun m => m.len)).sum

/-- The payloads of the write messages of a list of messages. -/
def payload (msgs : List i2c_msg) : List Nat := (msgs.map (fun m => m.buf)).flatten

/-- Number of reset sequences in a trace: each one starts by driving the
reset line active. -/
def reset_count : List Event → Nat
  | [] => 0
  | Event.gpio 1 :: t => reset_count t + 1
  | _ :: t => reset_count t

/-- Number of buffers obtained from `kzalloc` in a trace. -/
def alloc_count : List Event → Nat
  | [] => 0
  | Event.kzalloc _ (some _) :: t => alloc_count t + 1
  | _ :: t => alloc_count t

/-- Number of buffers given back with `kfree` in a trace. -/
def free_count : List Event → Nat
  | [] => 0
  | Event.kfree (some _) :: t => free_count t + 1
  | _ :: t => free_count t

/-! ## The chunking on unbounded integers -/

/-- The loop of `fill_bitstream_msg` computed with unbounded integers: no
`int` wraps and the length is not cut to 16 bits. -/
def ideal_fill (client : i2c_client) (mem : List Nat) (maxlen msgnum : Int) :
    Nat → Int → Int → List i2c_msg
  | 0, _, _ => []
  | fuel + 1, i, msglen =>
    if i < msgnum then
      let off := i * maxlen
      let len := (if msglen > maxlen then maxlen else msglen).toNat
      { addr := client.addr
        flags := if i > 0 then I2C_M_NOSTART else 0
        len := len
        buf := (mem.drop off.toNat).take len } ::
        ideal_fill client mem maxlen msgnum fuel (i + 1) (msglen - maxlen)
    else []

/-- The messages of the burst write computed with unbounded integers. -/
def ideal_msgs (client : i2c_client) (buf : List Nat) (count : Nat) : List i2c_msg :=
  let msglen : Int := (count : Int) + 4
  let maxlen : Int := 65535
  let msgnum : Int := Int.tdiv (msglen + maxlen - 1) maxlen
  let mem := lsc_bitstream_burst ++ buf.take count
  ideal_fill client mem maxlen msgnum msgnum.toNat 0 msglen

/-- Write-init, then write of `image`, then write-complete, each step run
in the world the previous one left: the three return values and the final
world. -/
def load_image (priv : crosslink_fpga_priv) (image : List Nat) (w : World) :
    (Int × Int × Int) × World :=
  let (r1, w) := crosslink_fpga_ops_write_init priv w
  let (r2, w) := crosslink_fpga_ops_write priv image image.length w
  let (r3, w) := crosslink_fpga_ops_write_complete priv w
  ((r1, r2, r3), w)

/-! ## Test doubles -/

def sentinel_reply : Reply := { ret := 2, rx := [0xFF, 0xFF, 0xFF, 0xFF] }
def nack_reply : Reply := { ret := -6, rx := [] }

/-- A world whose bus gives the same answer to every transfer and whose
allocations all succeed. -/
def const_world (r : Reply) : World :=
  { bus := fun _ => r
    heap := fun _ => true
    kmalloc_max := 4194304
    stale := fun _ => 0
    gpiod_get := 0
    mgr_register := 0
    nxfer := 0
    nalloc := 0
    trace := [] }

def cl : i2c_client := { addr := 0x40 }
def pv : crosslink_fpga_priv := { dev := cl, bistream_loaded := false }

def idcode_reply : Reply := { ret := 2, rx := [0x01, 0x2C, 0x00, 0x43] }
def done_reply : Reply := { ret := 2, rx := [0x00, 0x00, 0x01, 0x00] }

/-- A transport that always succeeds, whose identity read (transfer 2 of a
run) returns 0x43002C01 and whose other reads return a status with DONE
set; every allocation succeeds. -/
def good_world : World :=
  { bus := fun n => if n = 2 then idcode_reply else done_reply
    heap := fun _ => true
    kmalloc_max := 4194304
    stale := fun _ => 0
    gpiod_get := 0
    mgr_register := 0
    nxfer := 0
    nalloc := 0
    trace := [] }

/-- The documented quirk: the first reset leaves the device answering FF to
everything, so the identity read of the first attempt (transfer 2) returns
FF FF FF FF, and the identity read of the second attempt (transfer 5)
returns 0x43002C01. -/
def flaky_world : World :=
  { bus := fun n => if n = 5 then idcode_reply else sentinel_reply
    heap := fun _ => true
    kmalloc_max := 4194304
    stale := fun _ => 0
    gpiod_get := 0
    mgr_register := 0
    nxfer := 0
    nalloc := 0
    trace := [] }

/-! ## Vocabulary of the proofs -/

/-- Chunk number `k` of a buffer `mem` holding `t` bytes. -/
def chunk_at (client : i2c_client) (mem : List Nat) (t k : Nat) : i2c_msg :=
  { addr := client.addr
    flags := if k = 0 then 0 else I2C_M_NOSTART
    len := min 65535 (t - k * 65535)
    buf := (mem.drop (k * 65535)).take (min 65535 (t - k * 65535)) }

/-- Number of chunks of a logical write of `t` bytes. -/
def chunk_count (t : Nat) : Nat := (t + 65534) / 65535

/-- The value of `msgnum` in `crosslink_fpga_ops_write`. -/
def msgnum_of (count : Nat) : Int :=
  DIV_ROUND_UP (wrap32 (size_t ((count : Int) + 4))) U16_MAX

/-- The pointer the `n`-th `kzalloc` returns in the world `w`. -/
def ptr_of (w : World) (n size : Nat) : Option Nat :=
  if granted w.heap w.kmalloc_max n size then some n else none

/-- The three allocations of `crosslink_fpga_ops_write`. -/
def write_allocs (count : Nat) (w : World) : List Event :=
  [Event.kzalloc (size_t ((count : Int) + 4)) (ptr_of w w.nalloc (size_t ((count : Int) + 4))),
   Event.kzalloc (size_t ((count : Int) + 4))
     (ptr_of w (w.nalloc + 1) (size_t ((count : Int) + 4))),
   Event.kzalloc (size_t ((sizeof_i2c_msg : Int) * msgnum_of count))
     (ptr_of w (w.nalloc + 2) (size_t ((sizeof_i2c_msg : Int) * msgnum_of count)))]

/-- The second allocation of `crosslink_fpga_ops_write`, `msgbuf`, is granted. -/
def msgbuf_granted (w : World) (count : Nat) : Bool :=
  granted w.heap w.kmalloc_max (w.nalloc + 1) (size_t ((count : Int) + 4))

/-- The third allocation of `crosslink_fpga_ops_write`, `bitstream_msg`, is
granted. -/
def msgs_granted (w : World) (count : Nat) : Bool :=
  granted w.heap w.kmalloc_max (w.nalloc + 2)
    (size_t ((sizeof_i2c_msg : Int) * msgnum_of count))

/-- The events of one reset sequence, given the answers `r0`, `r1`, `r2` of
the bus to its three transfers. -/
def reset_events (priv : crosslink_fpga_priv) (r0 r1 r2 : Reply) : List Event :=
  [Event.gpio 1, Event.xfer [write_msg priv.dev activation_msg] 1 r0.ret] ++
  (if r0.ret < 0 then [] else
    [Event.gpio 0, Event.mdelay 10, Event.xfer [write_msg priv.dev isc_enable] 1 r1.ret] ++
    (if r1.ret < 0 then [] else
      [Event.xfer [write_msg priv.dev idcode_pub, read_msg priv.dev 4] 2 r2.ret]))

/-- The events of the loop bounded at 2, started in `w`. -/
def retry_events (priv : crosslink_fpga_priv) (w : World) : List Event :=
  reset_events priv (w.bus w.nxfer) (w.bus (w.nxfer + 1)) (w.bus (w.nxfer + 2)) ++
  (if (crosslink_fpga_reset priv w).1 = 0 then [] else
    reset_events priv
      ((crosslink_fpga_reset priv w).2.bus (crosslink_fpga_reset priv w).2.nxfer)
      ((crosslink_fpga_reset priv w).2.bus ((crosslink_fpga_reset priv w).2.nxfer + 1))
      ((crosslink_fpga_reset priv w).2.bus ((crosslink_fpga_reset priv w).2.nxfer + 2)))

/-- The events of the erase phase of write-init, started in `w`. -/
def erase_events (priv : crosslink_fpga_priv) (w : World) : List Event :=
  [Event.mdelay 1, Event.xfer [write_msg priv.dev isc_erase] 1 (w.bus w.nxfer).ret] ++
  (if (w.bus w.nxfer).ret < 0 then [] else [Event.mdelay 50])

/-! ## Arithmetic facts -/

theorem wrap32_eq (x : Int) (h : in_int x) : wrap32 x = x := by
  unfold in_int INT_MIN INT_MAX at h
  unfold wrap32
  omega

theorem size_t_eq (x : Int) (h0 : 0 ≤ x) (h1 : x < 18446744073709551616) :
    (size_t x : Int) = x := by
  unfold size_t
  omega

theorem u16_eq (x : Int) (h0 : 0 ≤ x) (h1 : x ≤ 65535) : u16 x = x.toNat := by
  unfold u16
  omega

theorem DIV_ROUND_UP_eq (t : Nat) (h : t + 65534 ≤ 2147483647) :
    DIV_ROUND_UP (t : Int) U16_MAX = ((t + 65534) / 65535 : Nat) := by
  have inner : wrap32 (wrap32 ((t : Int) + 65535) - 1) = (t : Int) + 65534 := by
    unfold wrap32
    omega
  unfold DIV_ROUND_UP U16_MAX
  rw [inner, Int.tdiv_eq_ediv (by omega) (by omega), wrap32_eq]
  · omega
  · unfold in_int INT_MIN INT_MAX
    omega

/-! ## Closed form of the chunking loop -/

theorem fill_closed (client : i2c_client) (mem : List Nat) (t : Nat)
    (h : t + 65534 ≤ 2147483647) :
    ∀ (m k : Nat), k + m = chunk_count t →
      fill_bitstream_msg client mem U16_MAX (chunk_count t : Nat) m k
          ((t : Int) - (k : Int) * 65535)
        = (List.range' k m).map (chunk_at client mem t) := by
  intro m
  induction m with
  | zero => intro k _; simp [fill_bitstream_msg]
  | succ m ih =>
    intro k hk
    have hn : chunk_count t = (t + 65534) / 65535 := rfl
    have hlt : k < chunk_count t := by omega
    have hkt : k * 65535 < t := by omega
    have hoff : wrap32 ((k : Int) * U16_MAX) = ((k * 65535 : Nat) : Int) := by
      rw [wrap32_eq]
      · unfold U16_MAX; push_cast; rfl
      · unfold in_int INT_MIN INT_MAX U16_MAX; omega
    have hi : wrap32 ((k : Int) + 1) = ((k + 1 : Nat) : Int) := by
      rw [wrap32_eq]
      · push_cast; rfl
      · unfold in_int INT_MIN INT_MAX; omega
    have hlen : wrap32 ((t : Int) - (k : Int) * 65535 - U16_MAX)
        = (t : Int) - ((k + 1 : Nat) : Int) * 65535 := by
      rw [wrap32_eq]
      · unfold U16_MAX; push_cast; ring
      · unfold in_int INT_MIN INT_MAX U16_MAX; omega
    have hu : u16 (if (t : Int) - (k : Int) * 65535 > U16_MAX then U16_MAX
        else (t : Int) - (k : Int) * 65535) = min 65535 (t - k * 65535) := by
      unfold U16_MAX
      split
      · rw [u16_eq _ (by omega) (by omega)]; omega
      · rw [u16_eq _ (by omega) (by omega)]; omega
    have hflag : (if (k : Int) > 0 then I2C_M_NOSTART else 0)
        = (if k = 0 then 0 else I2C_M_NOSTART) := by
      by_cases hk0 : k = 0
      · simp [hk0]
      · have : (k : Int) > 0 := by omega
        simp [hk0, this]
    have hcond : (k : Int) < ((chunk_count t : Nat) : Int) := by omega
    rw [fill_bitstream_msg]
    simp only [hcond, if_true, hoff, hi, hlen, hu, hflag, Int.toNat_ofNat]
    rw [ih (k + 1) (by omega), List.range'_succ, List.map_cons]
    rfl

/-- Under the bound, the messages of the burst write are the chunks
`0 .. chunk_count (L + 4) - 1` of the prefix followed by the image. -/
theorem bitstream_msgs_closed (client : i2c_client) (buf : List Nat)
    (h : buf.length + 4 + 65534 ≤ 2147483647) :
    bitstream_msgs client buf buf.length
      = (List.range (chunk_count (buf.length + 4))).map
          (chunk_at client (lsc_bitstream_burst ++ buf) (buf.length + 4)) := by
  have hs : wrap32 (size_t ((buf.length : Int) + 4)) = ((buf.length + 4 : Nat) : Int) := by
    rw [size_t_eq _ (by omega) (by omega), wrap32_eq]
    · push_cast; rfl
    · unfold in_int INT_MIN INT_MAX; omega
  have hd := DIV_ROUND_UP_eq (buf.length + 4) h
  have hc := fill_closed client (lsc_bitstream_burst ++ buf) (buf.length + 4) h
    (chunk_count (buf.length + 4)) 0 (by omega)
  unfold bitstream_msgs
  simp only [hs, hd, Int.toNat_ofNat, List.take_length]
  have hz : ((buf.length + 4 : Nat) : Int) - ((0 : Nat) : Int) * 65535
      = ((buf.length + 4 : Nat) : Int) := by simp
  rw [hz] at hc
  have hb : List.take 4 lsc_bitstream_burst = lsc_bitstream_burst := rfl
  rw [hb]
  unfold chunk_count at hc ⊢
  rw [List.range_eq_range', ← hc]
  rfl

theorem chunks_payload (client : i2c_client) (mem : List Nat) (t : Nat)
    (hmem : mem.length = t) :
    ∀ (m k : Nat), k + m = chunk_count t →
      payload ((List.range' k m).map (chunk_at client mem t)) = mem.drop (k * 65535) := by
  intro m
  induction m with
  | zero =>
    intro k hk
    have hn : chunk_count t = (t + 65534) / 65535 := rfl
    have : mem.length ≤ k * 65535 := by omega
    simp [payload, List.drop_eq_nil_of_le this]
  | succ m ih =>
    intro k hk
    have hn : chunk_count t = (t + 65534) / 65535 := rfl
    have hrec := ih (k + 1) (by omega)
    unfold payload at hrec ⊢
    rw [List.range'_succ, List.map_cons, List.map_cons, List.flatten_cons, hrec]
    show List.take (min 65535 (t - k * 65535)) (List.drop (k * 65535) mem)
      ++ List.drop ((k + 1) * 65535) mem = List.drop (k * 65535) mem
    by_cases hc : 65535 ≤ t - k * 65535
    · have h1 : min 65535 (t - k * 65535) = 65535 := by omega
      have h2 : (k + 1) * 65535 = k * 65535 + 65535 := by ring
      rw [h1, h2, ← List.drop_drop, List.take_append_drop]
    · have h1 : mem.length ≤ (k + 1) * 65535 := by omega
      have h2 : (List.drop (k * 65535) mem).length ≤ min 65535 (t - k * 65535) := by
        rw [List.length_drop]; omega
      rw [List.drop_eq_nil_of_le h1, List.take_of_length_le h2, List.append_nil]

theorem chunks_len_sum (client : i2c_client) (mem : List Nat) (t : Nat) :
    ∀ (m k : Nat), k + m = chunk_count t →
      (((List.range' k m).map (chunk_at client mem t)).map (fun c => c.len)).sum
        = t - k * 65535 := by
  intro m
  induction m with
  | zero =>
    intro k hk
    have hn : chunk_count t = (t + 65534) / 65535 := rfl
    simp
    omega
  | succ m ih =>
    intro k hk
    have hn : chunk_count t = (t + 65534) / 65535 := rfl
    have hrec := ih (k + 1) (by omega)
    rw [List.range'_succ, List.map_cons, List.map_cons, List.sum_cons, hrec]
    show min 65535 (t - k * 65535) + (t - (k + 1) * 65535) = t - k * 65535
    omega

/-! ## Traces of the calls -/

theorem transfers_append (a b : List Event) :
    transfers (a ++ b) = transfers a ++ transfers b := by
  induction a with
  | nil => rfl
  | cons e t ih => cases e <;> simp [transfers, ih]

theorem write_nomem_msgbuf (priv : crosslink_fpga_priv) (buf : List Nat) (count : Nat)
    (w : World) (h1 : msgbuf_granted w count = false) :
    (crosslink_fpga_ops_write priv buf count w).1 = -ENOMEM ∧
    events_since w (crosslink_fpga_ops_write priv buf count w).2
      = (write_allocs count w).take 2 := by
  unfold msgbuf_granted at h1
  simp [crosslink_fpga_ops_write, events_since, kzalloc, write_allocs, ptr_of, h1]

theorem write_nomem_msgs (priv : crosslink_fpga_priv) (buf : List Nat) (count : Nat)
    (w : World) (h1 : msgbuf_granted w count = true) (h2 : msgs_granted w count = false) :
    (crosslink_fpga_ops_write priv buf count w).1 = -ENOMEM ∧
    events_since w (crosslink_fpga_ops_write priv buf count w).2 = write_allocs count w := by
  unfold msgbuf_granted at h1
  unfold msgs_granted msgnum_of at h2
  simp [crosslink_fpga_ops_write, events_since, kzalloc, write_allocs, ptr_of, msgnum_of,
    h1, h2]

theorem write_init_fails (priv : crosslink_fpga_priv) (buf : List Nat) (count : Nat)
    (w : World) (h1 : msgbuf_granted w count = true) (h2 : msgs_granted w count = true)
    (h3 : (w.bus w.nxfer).ret < 0) :
    (crosslink_fpga_ops_write priv buf count w).1 = (w.bus w.nxfer).ret ∧
    events_since w (crosslink_fpga_ops_write priv buf count w).2
      = write_allocs count w
        ++ [Event.xfer [write_msg priv.dev lsc_init] 1 (w.bus w.nxfer).ret] := by
  unfold msgbuf_granted at h1
  unfold msgs_granted msgnum_of at h2
  simp [crosslink_fpga_ops_write, events_since, kzalloc, i2c_transfer, write_allocs, ptr_of,
    msgnum_of, h1, h2, h3]

theorem write_burst_fails (priv : crosslink_fpga_priv) (buf : List Nat) (count : Nat)
    (w : World) (h1 : msgbuf_granted w count = true) (h2 : msgs_granted w count = true)
    (h3 : 0 ≤ (w.bus w.nxfer).ret) (h4 : (w.bus (w.nxfer + 1)).ret < 0) :
    (crosslink_fpga_ops_write priv buf count w).1 = (w.bus (w.nxfer + 1)).ret ∧
    events_since w (crosslink_fpga_ops_write priv buf count w).2
      = write_allocs count w
        ++ [Event.xfer [write_msg priv.dev lsc_init] 1 (w.bus w.nxfer).ret,
            Event.mdelay 100,
            Event.xfer (bitstream_msgs priv.dev buf count) (msgnum_of count)
              (w.bus (w.nxfer + 1)).ret] := by
  unfold msgbuf_granted at h1
  unfold msgs_granted msgnum_of at h2
  have h3n : ¬ (w.bus w.nxfer).ret < 0 := by omega
  simp [crosslink_fpga_ops_write, events_since, kzalloc, i2c_transfer, mdelay, write_allocs,
    ptr_of, msgnum_of, h1, h2, h3n, h4]

theorem write_status_fails (priv : crosslink_fpga_priv) (buf : List Nat) (count : Nat)
    (w : World) (h1 : msgbuf_granted w count = true) (h2 : msgs_granted w count = true)
    (h3 : 0 ≤ (w.bus w.nxfer).ret) (h4 : 0 ≤ (w.bus (w.nxfer + 1)).ret)
    (h5 : (w.bus (w.nxfer + 2)).ret < 0) :
    (crosslink_fpga_ops_write priv buf count w).1 = (w.bus (w.nxfer + 2)).ret ∧
    events_since w (crosslink_fpga_ops_write priv buf count w).2
      = write_allocs count w
        ++ [Event.xfer [write_msg priv.dev lsc_init] 1 (w.bus w.nxfer).ret,
            Event.mdelay 100,
            Event.xfer (bitstream_msgs priv.dev buf count) (msgnum_of count)
              (w.bus (w.nxfer + 1)).ret,
            Event.xfer [write_msg priv.dev lsc_read_status, read_msg priv.dev 4] 2
              (w.bus (w.nxfer + 2)).ret] := by
  unfold msgbuf_granted at h1
  unfold msgs_granted msgnum_of at h2
  have h3n : ¬ (w.bus w.nxfer).ret < 0 := by omega
  have h4n : ¬ (w.bus (w.nxfer + 1)).ret < 0 := by omega
  simp [crosslink_fpga_ops_write, events_since, kzalloc, i2c_transfer, mdelay, write_allocs,
    ptr_of, msgnum_of, h1, h2, h3n, h4n, h5]

theorem write_completes (priv : crosslink_fpga_priv) (buf : List Nat) (count : Nat)
    (w : World) (h1 : msgbuf_granted w count = true) (h2 : msgs_granted w count = true)
    (h3 : 0 ≤ (w.bus w.nxfer).ret) (h4 : 0 ≤ (w.bus (w.nxfer + 1)).ret)
    (h5 : 0 ≤ (w.bus (w.nxfer + 2)).ret) :
    (crosslink_fpga_ops_write priv buf count w).1
      = (if read_u32 (w.stale (w.nxfer + 2)) (w.bus (w.nxfer + 2)).rx &&& STATUS_DONE = 0 then - EIO else 0) ∧
    events_since w (crosslink_fpga_ops_write priv buf count w).2
      = write_allocs count w
        ++ [Event.xfer [write_msg priv.dev lsc_init] 1 (w.bus w.nxfer).ret,
            Event.mdelay 100,
            Event.xfer (bitstream_msgs priv.dev buf count) (msgnum_of count)
              (w.bus (w.nxfer + 1)).ret,
            Event.xfer [write_msg priv.dev lsc_read_status, read_msg priv.dev 4] 2
              (w.bus (w.nxfer + 2)).ret,
            Event.kfree (ptr_of w (w.nalloc + 1) (size_t ((count : Int) + 4))),
            Event.kfree
              (ptr_of w (w.nalloc + 2) (size_t ((sizeof_i2c_msg : Int) * msgnum_of count)))] := by
  unfold msgbuf_granted at h1
  unfold msgs_granted msgnum_of at h2
  have h3n : ¬ (w.bus w.nxfer).ret < 0 := by omega
  have h4n : ¬ (w.bus (w.nxfer + 1)).ret < 0 := by omega
  have h5n : ¬ (w.bus (w.nxfer + 2)).ret < 0 := by omega
  by_cases hd : read_u32 (w.stale (w.nxfer + 2)) (w.bus (w.nxfer + 2)).rx &&& STATUS_DONE = 0
  · simp [crosslink_fpga_ops_write, events_since, kzalloc, i2c_transfer, mdelay, kfree,
      write_allocs, ptr_of, msgnum_of, h1, h2, h3n, h4n, h5n, hd]
  · simp [crosslink_fpga_ops_write, events_since, kzalloc, i2c_transfer, mdelay, kfree,
      write_allocs, ptr_of, msgnum_of, h1, h2, h3n, h4n, h5n, hd]

theorem write_transfers (priv : crosslink_fpga_priv) (buf : List Nat) (count : Nat)
    (w : World) :
    transfers (events_since w (crosslink_fpga_ops_write priv buf count w).2)
      <+: [[write_msg priv.dev lsc_init], bitstream_msgs priv.dev buf count,
            [write_msg priv.dev lsc_read_status, read_msg priv.dev 4]] := by
  by_cases h1 : msgbuf_granted w count = true
  · by_cases h2 : msgs_granted w count = true
    · by_cases h3 : 0 ≤ (w.bus w.nxfer).ret
      · by_cases h4 : 0 ≤ (w.bus (w.nxfer + 1)).ret
        · by_cases h5 : 0 ≤ (w.bus (w.nxfer + 2)).ret
          · rw [(write_completes priv buf count w h1 h2 h3 h4 h5).2]
            simp [transfers, write_allocs, transfers_append]
          · rw [(write_status_fails priv buf count w h1 h2 h3 h4 (by omega)).2]
            simp [transfers, write_allocs, transfers_append]
        · rw [(write_burst_fails priv buf count w h1 h2 h3 (by omega)).2]
          simp [transfers, write_allocs, transfers_append]
      · rw [(write_init_fails priv buf count w h1 h2 (by omega)).2]
        simp [transfers, write_allocs, transfers_append]
    · rw [(write_nomem_msgs priv buf count w h1 (by simpa using h2)).2]
      simp [transfers, write_allocs]
  · rw [(write_nomem_msgbuf priv buf count w (by simpa using h1)).2]
    simp [transfers, write_allocs]

/-- Whenever a call of `crosslink_fpga_ops_write` makes its second transfer,
the messages handed over are those the chunking loop built. -/
theorem burst_transfer_eq (priv : crosslink_fpga_priv) (buf : List Nat) (count : Nat)
    (w : World) (msgs : List i2c_msg)
    (h : burst_transfer (events_since w (crosslink_fpga_ops_write priv buf count w).2)
      = some msgs) :
    msgs = bitstream_msgs priv.dev buf count := by
  obtain ⟨r, hr⟩ := write_transfers priv buf count w
  unfold burst_transfer at h
  have hlen : 1 < (transfers
      (events_since w (crosslink_fpga_ops_write priv buf count w).2)).length := by
    by_contra hc
    rw [List.getElem?_eq_none (by omega)] at h
    cases h
  have h2 : (transfers (events_since w (crosslink_fpga_ops_write priv buf count w).2)
      ++ r)[1]? = _ := List.getElem?_append_left hlen
  rw [hr] at h2
  simp only [List.getElem?_cons_succ, List.getElem?_cons_zero] at h2
  exact (Option.some.inj (h2.trans h)).symm

theorem transfers_write_allocs (count : Nat) (w : World) :
    transfers (write_allocs count w) = [] := rfl

/-- With both buffers obtained and the LSC_INIT transfer accepted, the
second transfer is made. -/
theorem burst_transfer_issued (priv : crosslink_fpga_priv) (buf : List Nat) (count : Nat)
    (w : World) (h1 : msgbuf_granted w count = true) (h2 : msgs_granted w count = true)
    (h3 : 0 ≤ (w.bus w.nxfer).ret) :
    burst_transfer (events_since w (crosslink_fpga_ops_write priv buf count w).2)
      = some (bitstream_msgs priv.dev buf count) := by
  unfold burst_transfer
  by_cases h4 : 0 ≤ (w.bus (w.nxfer + 1)).ret
  · by_cases h5 : 0 ≤ (w.bus (w.nxfer + 2)).ret
    · rw [(write_completes priv buf count w h1 h2 h3 h4 h5).2]
      simp only [transfers, transfers_write_allocs, transfers_append, List.nil_append,
        List.getElem?_cons_succ, List.getElem?_cons_zero]
    · rw [(write_status_fails priv buf count w h1 h2 h3 h4 (by omega)).2]
      simp only [transfers, transfers_write_allocs, transfers_append, List.nil_append,
        List.getElem?_cons_succ, List.getElem?_cons_zero]
  · rw [(write_burst_fails priv buf count w h1 h2 h3 (by omega)).2]
    simp only [transfers, transfers_write_allocs, transfers_append, List.nil_append,
      List.getElem?_cons_succ, List.getElem?_cons_zero]

theorem chunk_at_of_getElem? (client : i2c_client) (mem : List Nat) (t n i : Nat)
    (m : i2c_msg) (h : ((List.range n).map (chunk_at client mem t))[i]? = some m) :
    i < n ∧ m = chunk_at client mem t i := by
  rw [List.getElem?_map] at h
  by_cases hi : i < n
  · rw [List.getElem?_range hi] at h
    exact ⟨hi, (Option.some.inj h).symm⟩
  · rw [List.getElem?_eq_none (by rw [List.length_range]; omega)] at h
    cases h

theorem bitstream_msgs_getElem? (client : i2c_client) (buf : List Nat)
    (h : buf.length + 4 + 65534 ≤ 2147483647) (i : Nat)
    (hi : i < chunk_count (buf.length + 4)) :
    (bitstream_msgs client buf buf.length)[i]?
      = some (chunk_at client (lsc_bitstream_burst ++ buf) (buf.length + 4) i) := by
  rw [bitstream_msgs_closed client buf h, List.getElem?_map, List.getElem?_range hi]
  rfl

/-- A call that makes the burst transfer was granted `msgbuf`. -/
theorem burst_transfer_granted (priv : crosslink_fpga_priv) (buf : List Nat) (count : Nat)
    (w : World) (msgs : List i2c_msg)
    (h : burst_transfer (events_since w (crosslink_fpga_ops_write priv buf count w).2)
      = some msgs) :
    msgbuf_granted w count = true := by
  by_cases h1 : msgbuf_granted w count = true
  · exact h1
  · have h1f : msgbuf_granted w count = false := by
      cases hg : msgbuf_granted w count
      · rfl
      · exact absurd hg h1
    unfold burst_transfer at h
    rw [(write_nomem_msgbuf priv buf count w h1f).2] at h
    simp only [write_allocs, List.take, transfers, List.getElem?_nil] at h
    cases h

/-- An image whose `msgbuf` the allocator grants is short enough for the
`int` arithmetic of the chunking. -/
theorem granted_bound (buf : List Nat) (w : World)
    (hs : buf.length + 4 < 18446744073709551616)
    (hk : w.kmalloc_max + 65534 ≤ 2147483647)
    (hg : msgbuf_granted w buf.length = true) :
    buf.length + 4 + 65534 ≤ 2147483647 := by
  unfold msgbuf_granted granted at hg
  rw [Bool.and_eq_true, decide_eq_true_eq] at hg
  have h1 := size_t_eq ((buf.length : Int) + 4) (by omega) (by omega)
  omega

/-- The number of messages of the burst transfer. -/
theorem burst_transfer_length (priv : crosslink_fpga_priv) (buf : List Nat) (w : World)
    (hs : buf.length + 4 < 18446744073709551616)
    (hk : w.kmalloc_max + 65534 ≤ 2147483647) (msgs : List i2c_msg)
    (hm : burst_transfer
      (events_since w (crosslink_fpga_ops_write priv buf buf.length w).2) = some msgs) :
    msgs.length = (buf.length + 4 + 65534) / 65535 := by
  have h := granted_bound buf w hs hk (burst_transfer_granted priv buf buf.length w msgs hm)
  rw [burst_transfer_eq priv buf buf.length w msgs hm, bitstream_msgs_closed priv.dev buf h,
    List.length_map, List.length_range]
  rfl

/-! ## Claims on the chunking of the burst write -/

/-- C1: for every image, of any length L (`count` is a `size_t`), with an
allocator that grants no request above `kmalloc_max`, itself below
2^31 - 65534: the messages `crosslink_fpga_ops_write` hands to the transport
for the burst write have lengths that add up to L + 4, and their payloads,
concatenated in order, are the prefix 7A 00 00 00 followed by the image; the
burst write is made as soon as both buffers are obtained and LSC_INIT is
accepted. -/
theorem burst_reproduces_image (priv : crosslink_fpga_priv) (buf : List Nat) (w : World)
    (hs : buf.length + 4 < 18446744073709551616)
    (hk : w.kmalloc_max + 65534 ≤ 2147483647) :
    (∀ msgs, burst_transfer
        (events_since w (crosslink_fpga_ops_write priv buf buf.length w).2) = some msgs →
      total_len msgs = buf.length + 4 ∧
      (payload msgs).length = buf.length + 4 ∧
      payload msgs = [0x7A, 0x00, 0x00, 0x00] ++ buf) ∧
    (msgbuf_granted w buf.length = true → msgs_granted w buf.length = true →
      0 ≤ (w.bus w.nxfer).ret →
      burst_transfer (events_since w (crosslink_fpga_ops_write priv buf buf.length w).2)
        = some (bitstream_msgs priv.dev buf buf.length)) := by
  refine ⟨?_, burst_transfer_issued priv buf buf.length w⟩
  intro msgs hm
  have h := granted_bound buf w hs hk (burst_transfer_granted priv buf buf.length w msgs hm)
  have hmem : (lsc_bitstream_burst ++ buf).length = buf.length + 4 := by
    rw [List.length_append]
    show 4 + buf.length = buf.length + 4
    omega
  have hp := chunks_payload priv.dev (lsc_bitstream_burst ++ buf) (buf.length + 4) hmem
    (chunk_count (buf.length + 4)) 0 (by omega)
  have hl := chunks_len_sum priv.dev (lsc_bitstream_burst ++ buf) (buf.length + 4)
    (chunk_count (buf.length + 4)) 0 (by omega)
  rw [← List.range_eq_range', ← bitstream_msgs_closed priv.dev buf h,
    ← burst_transfer_eq priv buf buf.length w msgs hm] at hp hl
  rw [Nat.zero_mul, List.drop_zero] at hp
  rw [Nat.zero_mul, Nat.sub_zero] at hl
  refine ⟨hl, ?_, hp⟩
  rw [hp, hmem]

theorem two_chunk_size : (List.replicate 70000 0).length + 4 < 18446744073709551616 := by
  rw [List.length_replicate]
  decide

theorem two_chunk_bound : (List.replicate 70000 0).length + 4 + 65534 ≤ 2147483647 := by
  rw [List.length_replicate]
  decide

theorem two_chunk_msgbuf :
    msgbuf_granted good_world (List.replicate 70000 0).length = true := by
  rw [List.length_replicate]
  with_unfolding_all decide

theorem two_chunk_msgs :
    msgs_granted good_world (List.replicate 70000 0).length = true := by
  rw [List.length_replicate]
  with_unfolding_all decide

theorem two_chunk_count : chunk_count ((List.replicate 70000 0).length + 4) = 2 := by
  rw [List.length_replicate]
  rfl

theorem burst_reproduces_image_witness :
    (List.replicate 70000 0).length + 4 < 18446744073709551616 ∧
    good_world.kmalloc_max + 65534 ≤ 2147483647 ∧
    (bitstream_msgs pv.dev (List.replicate 70000 0) (List.replicate 70000 0).length).length
      = 2 ∧
    total_len (bitstream_msgs pv.dev (List.replicate 70000 0)
        (List.replicate 70000 0).length) = (List.replicate 70000 0).length + 4 ∧
    (payload (bitstream_msgs pv.dev (List.replicate 70000 0)
        (List.replicate 70000 0).length)).length = (List.replicate 70000 0).length + 4 ∧
    payload (bitstream_msgs pv.dev (List.replicate 70000 0)
        (List.replicate 70000 0).length)
      = [0x7A, 0x00, 0x00, 0x00] ++ List.replicate 70000 0 := by
  refine ⟨two_chunk_size, by decide, ?_,
    (burst_reproduces_image pv (List.replicate 70000 0) good_world two_chunk_size
      (by decide)).1 _
      ((burst_reproduces_image pv (List.replicate 70000 0) good_world two_chunk_size
        (by decide)).2 two_chunk_msgbuf two_chunk_msgs (by decide))⟩
  rw [bitstream_msgs_closed _ _ two_chunk_bound, List.length_map, List.length_range,
    two_chunk_count]

/-- C2: for every image, of any length L (`count` is a `size_t`), with an
allocator that grants no request above `kmalloc_max`, itself below
2^31 - 65534: the burst write has ceil((L + 4) / 65535) messages, none longer
than 65535 bytes; every message but the last has exactly 65535 bytes and the
last has between 1 and 65535 bytes; each message carries as many bytes as its
length field says. -/
theorem burst_chunk_sizes (priv : crosslink_fpga_priv) (buf : List Nat) (w : World)
    (hs : buf.length + 4 < 18446744073709551616)
    (hk : w.kmalloc_max + 65534 ≤ 2147483647) :
    (∀ msgs, burst_transfer
        (events_since w (crosslink_fpga_ops_write priv buf buf.length w).2) = some msgs →
      msgs.length = (buf.length + 4 + 65534) / 65535 ∧
      ∀ i m, msgs[i]? = some m →
        m.len ≤ 65535 ∧ m.buf.length = m.len ∧
        (i + 1 < msgs.length → m.len = 65535) ∧
        (i + 1 = msgs.length → 1 ≤ m.len)) ∧
    (msgbuf_granted w buf.length = true → msgs_granted w buf.length = true →
      0 ≤ (w.bus w.nxfer).ret →
      burst_transfer (events_since w (crosslink_fpga_ops_write priv buf buf.length w).2)
        = some (bitstream_msgs priv.dev buf buf.length)) := by
  refine ⟨?_, burst_transfer_issued priv buf buf.length w⟩
  intro msgs hm
  have h := granted_bound buf w hs hk (burst_transfer_granted priv buf buf.length w msgs hm)
  have hmem : (lsc_bitstream_burst ++ buf).length = buf.length + 4 := by
    rw [List.length_append]
    show 4 + buf.length = buf.length + 4
    omega
  have hc := bitstream_msgs_closed priv.dev buf h
  rw [← burst_transfer_eq priv buf buf.length w msgs hm] at hc
  have hlen : msgs.length = (buf.length + 4 + 65534) / 65535 := by
    rw [hc, List.length_map, List.length_range]
    rfl
  refine ⟨hlen, ?_⟩
  intro i m him
  rw [hc] at him
  obtain ⟨hi, rfl⟩ := chunk_at_of_getElem? _ _ _ _ _ _ him
  have hn : chunk_count (buf.length + 4) = (buf.length + 4 + 65534) / 65535 := rfl
  have hbuf : (chunk_at priv.dev (lsc_bitstream_burst ++ buf) (buf.length + 4) i).buf.length
      = min (min 65535 (buf.length + 4 - i * 65535))
          ((lsc_bitstream_burst ++ buf).length - i * 65535) := by
    show ((List.drop (i * 65535) (lsc_bitstream_burst ++ buf)).take _).length = _
    rw [List.length_take, List.length_drop]
  have hlenf : (chunk_at priv.dev (lsc_bitstream_burst ++ buf) (buf.length + 4) i).len
      = min 65535 (buf.length + 4 - i * 65535) := rfl
  rw [hbuf, hlenf, hmem, hlen]
  refine ⟨by omega, by omega, ?_, ?_⟩
  · intro h1; omega
  · intro h1; omega

theorem burst_chunk_sizes_witness :
    (List.replicate 70000 0).length + 4 < 18446744073709551616 ∧
    good_world.kmalloc_max + 65534 ≤ 2147483647 ∧
    (bitstream_msgs pv.dev (List.replicate 70000 0) (List.replicate 70000 0).length).length
      = ((List.replicate 70000 0).length + 4 + 65534) / 65535 ∧
    ((List.replicate 70000 0).length + 4 + 65534) / 65535 = 2 ∧
    (chunk_at pv.dev (lsc_bitstream_burst ++ List.replicate 70000 0)
      ((List.replicate 70000 0).length + 4) 0).len = 65535 ∧
    1 ≤ (chunk_at pv.dev (lsc_bitstream_burst ++ List.replicate 70000 0)
      ((List.replicate 70000 0).length + 4) 1).len ∧
    (chunk_at pv.dev (lsc_bitstream_burst ++ List.replicate 70000 0)
      ((List.replicate 70000 0).length + 4) 1).len ≤ 65535 := by
  have hp := (burst_chunk_sizes pv (List.replicate 70000 0) good_world two_chunk_size
      (by decide)).1 _
    ((burst_chunk_sizes pv (List.replicate 70000 0) good_world two_chunk_size
      (by decide)).2 two_chunk_msgbuf two_chunk_msgs (by decide))
  have hn : ((List.replicate 70000 0).length + 4 + 65534) / 65535 = 2 := by
    rw [List.length_replicate]
  have h0 := hp.2 0 _ (bitstream_msgs_getElem? pv.dev (List.replicate 70000 0)
    two_chunk_bound 0 (by rw [two_chunk_count]; decide))
  have h1 := hp.2 1 _ (bitstream_msgs_getElem? pv.dev (List.replicate 70000 0)
    two_chunk_bound 1 (by rw [two_chunk_count]; decide))
  refine ⟨two_chunk_size, by decide, hp.1, hn, h0.2.2.1 ?_, h1.2.2.2 ?_, h1.1⟩
  · rw [hp.1, hn]
    decide
  · rw [hp.1, hn]

theorem wrap32_le (x : Int) : wrap32 x ≤ INT_MAX := by
  unfold wrap32 INT_MAX
  omega

theorem msgnum_of_le (count : Nat) : msgnum_of count ≤ INT_MAX := by
  unfold msgnum_of DIV_ROUND_UP
  exact wrap32_le _

/-- The loop runs `msgnum - i` times: the bound on the iterations passed by
`bitstream_msgs` never cuts it short. -/
theorem fill_length (client : i2c_client) (mem : List Nat) (maxlen msgnum : Int)
    (hmax : msgnum ≤ INT_MAX) :
    ∀ (fuel : Nat) (i msglen : Int), 0 ≤ i →
      (fill_bitstream_msg client mem maxlen msgnum fuel i msglen).length
        = min fuel (msgnum - i).toNat := by
  intro fuel
  induction fuel with
  | zero => intro i msglen _; simp only [fill_bitstream_msg, List.length_nil]; omega
  | succ n ih =>
    intro i msglen hi
    rw [fill_bitstream_msg]
    by_cases hc : i < msgnum
    · have hw : wrap32 (i + 1) = i + 1 := by
        apply wrap32_eq
        unfold in_int INT_MIN
        unfold INT_MAX at hmax ⊢
        omega
      simp only [hc, if_true, List.length_cons, hw, ih (i + 1) _ (by omega)]
      omega
    · simp only [hc, if_false, List.length_nil]
      omega

/-- More iterations allowed than `msgnum - i` change nothing: the loop ends on
its own condition. -/
theorem fill_fuel_irrelevant (client : i2c_client) (mem : List Nat) (maxlen msgnum : Int)
    (hmax : msgnum ≤ INT_MAX) :
    ∀ (fuel k : Nat) (i msglen : Int), 0 ≤ i → (msgnum - i).toNat ≤ fuel →
      fill_bitstream_msg client mem maxlen msgnum (fuel + k) i msglen
        = fill_bitstream_msg client mem maxlen msgnum fuel i msglen := by
  intro fuel
  induction fuel with
  | zero =>
    intro k i msglen _ hle
    have hc : ¬ i < msgnum := by omega
    cases k with
    | zero => rfl
    | succ k =>
      rw [Nat.zero_add, fill_bitstream_msg, fill_bitstream_msg]
      simp only [hc, if_false]
  | succ n ih =>
    intro k i msglen hi hle
    have hs : n + 1 + k = (n + k) + 1 := by omega
    rw [hs, fill_bitstream_msg, fill_bitstream_msg]
    by_cases hc : i < msgnum
    · have hw : wrap32 (i + 1) = i + 1 := by
        apply wrap32_eq
        unfold in_int INT_MIN
        unfold INT_MAX at hmax ⊢
        omega
      simp only [hc, if_true, hw]
      rw [ih k (i + 1) _ (by omega) (by omega)]
    · simp only [hc, if_false]

theorem fill_continues (client : i2c_client) (mem : List Nat) (maxlen msgnum : Int)
    (hmax : msgnum ≤ INT_MAX) :
    ∀ (fuel : Nat) (i msglen : Int), 0 < i →
      ∀ m ∈ fill_bitstream_msg client mem maxlen msgnum fuel i msglen,
        m.addr = client.addr ∧ m.flags = I2C_M_NOSTART := by
  intro fuel
  induction fuel with
  | zero => intro i msglen _ m hm; simp only [fill_bitstream_msg, List.not_mem_nil] at hm
  | succ n ih =>
    intro i msglen hi m hm
    rw [fill_bitstream_msg] at hm
    by_cases hc : i < msgnum
    · have hw : wrap32 (i + 1) = i + 1 := by
        apply wrap32_eq
        unfold in_int INT_MIN
        unfold INT_MAX at hmax ⊢
        omega
      have hpos : i > 0 := hi
      simp only [hc, if_true, hw, hpos, List.mem_cons] at hm
      rcases hm with rfl | hm
      · exact ⟨rfl, rfl⟩
      · exact ih (i + 1) _ (by omega) m hm
    · simp only [hc, if_false, List.not_mem_nil] at hm

theorem fill_flags (client : i2c_client) (mem : List Nat) (maxlen msgnum : Int)
    (hmax : msgnum ≤ INT_MAX) (fuel : Nat) (msglen : Int) (i : Nat) (m : i2c_msg)
    (h : (fill_bitstream_msg client mem maxlen msgnum fuel 0 msglen)[i]? = some m) :
    m.addr = client.addr ∧ m.flags = (if i = 0 then 0 else I2C_M_NOSTART) := by
  cases fuel with
  | zero => simp only [fill_bitstream_msg, List.getElem?_nil] at h; cases h
  | succ n =>
    rw [fill_bitstream_msg] at h
    by_cases hc : (0 : Int) < msgnum
    · have hw : wrap32 (0 + 1) = 1 := by unfold wrap32; rfl
      have h0 : ¬ ((0 : Int) > 0) := by decide
      simp only [hc, if_true, hw, h0, if_false] at h
      cases i with
      | zero =>
        simp only [List.getElem?_cons_zero] at h
        cases h
        exact ⟨rfl, rfl⟩
      | succ j =>
        simp only [List.getElem?_cons_succ] at h
        have hm := List.getElem?_mem h
        have := fill_continues client mem maxlen msgnum hmax n 1 _ (by decide) m hm
        simp only [Nat.succ_ne_zero, if_false]
        exact this
    · simp only [hc, if_false, List.getElem?_nil] at h
      cases h

/-- C9: for every image, the transfers of a call of `crosslink_fpga_ops_write`
are at most LSC_INIT, one transfer with the whole array the chunking loop
built, and LSC_READ_STATUS; that one burst transfer is made as soon as both
buffers are obtained and LSC_INIT is accepted; it hands over all `msgnum`
messages; its first message has no flag set, every later one has exactly
I2C_M_NOSTART, and all carry the address of the client.  With an allocator
that grants no request above `kmalloc_max`, itself below 2^31 - 65534, the
burst has ceil((L + 4) / 65535) messages, so it has a first message. -/
theorem burst_is_one_continued_transfer (priv : crosslink_fpga_priv) (buf : List Nat)
    (w : World) :
    transfers (events_since w (crosslink_fpga_ops_write priv buf buf.length w).2)
      <+: [[write_msg priv.dev lsc_init], bitstream_msgs priv.dev buf buf.length,
            [write_msg priv.dev lsc_read_status, read_msg priv.dev 4]] ∧
    (msgbuf_granted w buf.length = true → msgs_granted w buf.length = true →
      0 ≤ (w.bus w.nxfer).ret →
      burst_transfer (events_since w (crosslink_fpga_ops_write priv buf buf.length w).2)
        = some (bitstream_msgs priv.dev buf buf.length)) ∧
    (∀ msgs, burst_transfer
        (events_since w (crosslink_fpga_ops_write priv buf buf.length w).2) = some msgs →
      msgs.length = (msgnum_of buf.length).toNat ∧
      ∀ i m, msgs[i]? = some m →
        m.addr = priv.dev.addr ∧ m.flags = (if i = 0 then 0 else I2C_M_NOSTART)) ∧
    (buf.length + 4 < 18446744073709551616 → w.kmalloc_max + 65534 ≤ 2147483647 →
      ∀ msgs, burst_transfer
        (events_since w (crosslink_fpga_ops_write priv buf buf.length w).2) = some msgs →
      msgs.length = (buf.length + 4 + 65534) / 65535 ∧ 0 < msgs.length) := by
  refine ⟨write_transfers priv buf buf.length w,
    burst_transfer_issued priv buf buf.length w, ?_, ?_⟩
  · intro msgs hm
    have he := burst_transfer_eq priv buf buf.length w msgs hm
    have hmax := msgnum_of_le buf.length
    unfold msgnum_of at hmax
    constructor
    · rw [he]
      unfold bitstream_msgs msgnum_of
      simp only []
      rw [fill_length _ _ _ _ hmax _ _ _ (le_refl 0)]
      simp only [Int.sub_zero, min_self]
    · intro i m him
      rw [he] at him
      unfold bitstream_msgs at him
      exact fill_flags _ _ _ _ hmax _ _ i m him
  · intro hs hk msgs hm
    have hl := burst_transfer_length priv buf w hs hk msgs hm
    refine ⟨hl, ?_⟩
    rw [hl]
    omega

theorem burst_is_one_continued_transfer_witness :
    burst_transfer (events_since good_world
        (crosslink_fpga_ops_write pv (List.replicate 70000 0)
          (List.replicate 70000 0).length good_world).2)
      = some (bitstream_msgs pv.dev (List.replicate 70000 0)
          (List.replicate 70000 0).length) ∧
    (bitstream_msgs pv.dev (List.replicate 70000 0) (List.replicate 70000 0).length).length
      = ((List.replicate 70000 0).length + 4 + 65534) / 65535 ∧
    ((List.replicate 70000 0).length + 4 + 65534) / 65535 = 2 ∧
    (chunk_at pv.dev (lsc_bitstream_burst ++ List.replicate 70000 0)
      ((List.replicate 70000 0).length + 4) 0).flags = 0 ∧
    (chunk_at pv.dev (lsc_bitstream_burst ++ List.replicate 70000 0)
      ((List.replicate 70000 0).length + 4) 1).flags = I2C_M_NOSTART ∧
    (chunk_at pv.dev (lsc_bitstream_burst ++ List.replicate 70000 0)
      ((List.replicate 70000 0).length + 4) 1).addr = pv.dev.addr := by
  have hb := (burst_is_one_continued_transfer pv (List.replicate 70000 0) good_world).2.1
    two_chunk_msgbuf two_chunk_msgs (by decide)
  have hf := ((burst_is_one_continued_transfer pv (List.replicate 70000 0)
    good_world).2.2.1 _ hb).2
  have hl := ((burst_is_one_continued_transfer pv (List.replicate 70000 0)
    good_world).2.2.2 two_chunk_size (by decide) _ hb).1
  have h0 := hf 0 _ (bitstream_msgs_getElem? pv.dev (List.replicate 70000 0)
    two_chunk_bound 0 (by rw [two_chunk_count]; decide))
  have h1 := hf 1 _ (bitstream_msgs_getElem? pv.dev (List.replicate 70000 0)
    two_chunk_bound 1 (by rw [two_chunk_count]; decide))
  refine ⟨hb, hl, by rw [List.length_replicate], h0.2, h1.2, h1.1⟩

/-! ## Machine arithmetic against unbounded arithmetic -/

theorem ideal_fill_closed (client : i2c_client) (mem : List Nat) (t : Nat) :
    ∀ (m k : Nat), k + m = chunk_count t →
      ideal_fill client mem 65535 (chunk_count t : Nat) m k ((t : Int) - (k : Int) * 65535)
        = (List.range' k m).map (chunk_at client mem t) := by
  intro m
  induction m with
  | zero => intro k _; simp only [ideal_fill, List.range'_zero, List.map_nil]
  | succ m ih =>
    intro k hk
    have hn : chunk_count t = (t + 65534) / 65535 := rfl
    have hlt : k < chunk_count t := by omega
    have hkt : k * 65535 < t := by omega
    have hoff : ((k : Int) * 65535).toNat = k * 65535 := by omega
    have hi : (k : Int) + 1 = ((k + 1 : Nat) : Int) := by push_cast; rfl
    have hlen : (t : Int) - (k : Int) * 65535 - 65535
        = (t : Int) - ((k + 1 : Nat) : Int) * 65535 := by push_cast; ring
    have hu : (if (t : Int) - (k : Int) * 65535 > 65535 then (65535 : Int)
        else (t : Int) - (k : Int) * 65535).toNat = min 65535 (t - k * 65535) := by
      split <;> omega
    have hflag : (if (k : Int) > 0 then I2C_M_NOSTART else 0)
        = (if k = 0 then 0 else I2C_M_NOSTART) := by
      by_cases hk0 : k = 0
      · simp only [hk0, Nat.cast_zero, gt_iff_lt, lt_self_iff_false, if_false, if_true]
      · have : (k : Int) > 0 := by omega
        simp only [hk0, this, if_true, if_false]
    have hcond : (k : Int) < ((chunk_count t : Nat) : Int) := by omega
    rw [ideal_fill]
    simp only [hcond, if_true, hoff, hi, hlen, hu, hflag]
    rw [ih (k + 1) (by omega), List.range'_succ, List.map_cons]
    rfl

theorem ideal_msgs_closed (client : i2c_client) (buf : List Nat) :
    ideal_msgs client buf buf.length
      = (List.range (chunk_count (buf.length + 4))).map
          (chunk_at client (lsc_bitstream_burst ++ buf) (buf.length + 4)) := by
  have hd : Int.tdiv ((buf.length : Int) + 4 + 65535 - 1) 65535
      = ((chunk_count (buf.length + 4) : Nat) : Int) := by
    rw [Int.tdiv_eq_ediv (by omega) (by omega)]
    unfold chunk_count
    omega
  have hc := ideal_fill_closed client (lsc_bitstream_burst ++ buf) (buf.length + 4)
    (chunk_count (buf.length + 4)) 0 (by omega)
  have hz : ((buf.length + 4 : Nat) : Int) - ((0 : Nat) : Int) * 65535
      = (buf.length : Int) + 4 := by push_cast; ring
  rw [hz] at hc
  unfold ideal_msgs
  simp only [hd, Int.toNat_ofNat, List.take_length]
  rw [List.range_eq_range', ← hc]
  rfl

/-- C10 (amended): for every image length L with L + 4 + 65535 <= 2^31 - 1,
every `int` computation of the chunking is exact: `msglen = L + 4`, the
sum `msglen + maxlen`, the difference `msglen + maxlen - 1` and its quotient
by `maxlen`, which is ceil((L + 4) / 65535); for each chunk `i` the index
`i + 1`, the offset `i * maxlen` and the running `msglen - maxlen` are
representable, the offset plus the length stays within the L + 4 bytes of
the buffer, and the length is at most 65535 and so is stored in the 16-bit
field unchanged.  The messages computed with machine integers are those
computed with unbounded integers. -/
theorem chunking_is_exact (client : i2c_client) (buf : List Nat)
    (h : buf.length + 4 + 65535 ≤ 2147483647) :
    (size_t ((buf.length : Int) + 4) = buf.length + 4 ∧
      wrap32 (size_t ((buf.length : Int) + 4)) = (buf.length : Int) + 4) ∧
    (DIV_ROUND_UP_in_range ((buf.length : Int) + 4) U16_MAX ∧
      DIV_ROUND_UP ((buf.length : Int) + 4) U16_MAX
        = Int.tdiv ((buf.length : Int) + 4 + U16_MAX - 1) U16_MAX ∧
      msgnum_of buf.length = ((buf.length + 4 + 65534) / 65535 : Nat)) ∧
    (∀ i : Nat, (i : Int) < msgnum_of buf.length →
      in_int ((i : Int) + 1) ∧
      in_int ((i : Int) * U16_MAX) ∧
      in_int ((buf.length : Int) + 4 - (i : Int) * U16_MAX) ∧
      in_int ((buf.length : Int) + 4 - (i : Int) * U16_MAX - U16_MAX) ∧
      (0 ≤ (if (buf.length : Int) + 4 - (i : Int) * U16_MAX > U16_MAX then U16_MAX
          else (buf.length : Int) + 4 - (i : Int) * U16_MAX)) ∧
      (if (buf.length : Int) + 4 - (i : Int) * U16_MAX > U16_MAX then U16_MAX
          else (buf.length : Int) + 4 - (i : Int) * U16_MAX) ≤ 65535 ∧
      (u16 (if (buf.length : Int) + 4 - (i : Int) * U16_MAX > U16_MAX then U16_MAX
          else (buf.length : Int) + 4 - (i : Int) * U16_MAX) : Int)
        = (if (buf.length : Int) + 4 - (i : Int) * U16_MAX > U16_MAX then U16_MAX
          else (buf.length : Int) + 4 - (i : Int) * U16_MAX) ∧
      (i : Int) * U16_MAX
          + (if (buf.length : Int) + 4 - (i : Int) * U16_MAX > U16_MAX then U16_MAX
            else (buf.length : Int) + 4 - (i : Int) * U16_MAX)
        ≤ (buf.length : Int) + 4) ∧
    bitstream_msgs client buf buf.length = ideal_msgs client buf buf.length := by
  have hst : size_t ((buf.length : Int) + 4) = buf.length + 4 := by
    have := size_t_eq ((buf.length : Int) + 4) (by omega) (by omega)
    omega
  have hw : wrap32 (size_t ((buf.length : Int) + 4)) = (buf.length : Int) + 4 := by
    rw [hst, wrap32_eq]
    · push_cast; rfl
    · unfold in_int INT_MIN INT_MAX; omega
  have hq : Int.tdiv ((buf.length : Int) + 4 + 65535 - 1) 65535
      = (((buf.length + 4 + 65534) / 65535 : Nat) : Int) := by
    rw [Int.tdiv_eq_ediv (by omega) (by omega)]
    omega
  have hd := DIV_ROUND_UP_eq (buf.length + 4) (by omega)
  have hmn : msgnum_of buf.length = ((buf.length + 4 + 65534) / 65535 : Nat) := by
    unfold msgnum_of
    rw [hw, ← hd]
    push_cast
    rfl
  refine ⟨⟨hst, hw⟩, ?_, ?_, ?_⟩
  · unfold DIV_ROUND_UP_in_range U16_MAX in_int INT_MIN INT_MAX
    rw [hq]
    refine ⟨⟨by omega, by omega, by omega⟩, ?_, hmn⟩
    have := hd
    unfold U16_MAX at this
    push_cast at this
    rw [this]
    push_cast
    rfl
  · intro i hi
    rw [hmn] at hi
    have hi2 : i < (buf.length + 4 + 65534) / 65535 := by omega
    have hkt : i * 65535 < buf.length + 4 := by omega
    unfold U16_MAX in_int INT_MIN INT_MAX
    refine ⟨by omega, by omega, by omega, by omega, ?_, ?_, ?_, ?_⟩
    · split <;> omega
    · split <;> omega
    · split
      · rw [u16_eq _ (by omega) (by omega)]; omega
      · rw [u16_eq _ (by omega) (by omega)]; omega
    · split <;> omega
  · rw [bitstream_msgs_closed client buf (by omega), ideal_msgs_closed]

theorem chunking_is_exact_witness :
    [1, 2, 3].length + 4 + 65535 ≤ 2147483647 ∧
    msgnum_of [1, 2, 3].length = (([1, 2, 3].length + 4 + 65534) / 65535 : Nat) ∧
    bitstream_msgs cl [1, 2, 3] [1, 2, 3].length
      = ideal_msgs cl [1, 2, 3] [1, 2, 3].length ∧
    ((0 : Nat) : Int) < msgnum_of [1, 2, 3].length ∧
    in_int (((0 : Nat) : Int) * U16_MAX) :=
  ⟨by decide, (chunking_is_exact cl [1, 2, 3] (by decide)).2.1.2.2,
    (chunking_is_exact cl [1, 2, 3] (by decide)).2.2.2,
    by with_unfolding_all decide,
    ((chunking_is_exact cl [1, 2, 3] (by decide)).2.2.1 0
      (by with_unfolding_all decide)).2.1⟩

/-- C10, counterexample: at L = 2147418109 the bound L + 4 + 65534 <= 2^31 - 1
of the claim holds, `msglen` is 2147418113, and the first operation of
`DIV_ROUND_UP(msglen, maxlen)`, the sum `msglen + maxlen`, is 2^31: it is not
representable in an `int`, and stored in one it is -2^31. -/
theorem round_up_sum_leaves_int :
    2147418109 + 4 + 65534 ≤ 2147483647 ∧
    wrap32 (size_t (((2147418109 : Nat) : Int) + 4)) = 2147418113 ∧
    ¬ DIV_ROUND_UP_in_range 2147418113 U16_MAX ∧
    (2147418113 : Int) + U16_MAX = 2147483648 ∧
    ¬ in_int ((2147418113 : Int) + U16_MAX) ∧
    wrap32 ((2147418113 : Int) + U16_MAX) = -2147483648 := by
  refine ⟨by decide, ?_, by decide, by decide, by decide, ?_⟩
  · have h1 : size_t (((2147418109 : Nat) : Int) + 4) = 2147418113 := by
      unfold size_t
      rfl
    rw [h1]
    unfold wrap32
    rfl
  · unfold wrap32 U16_MAX
    rfl

/-! ## The reset sequence -/

theorem events_since_append (w w' : World) (evs : List Event)
    (h : w'.trace = w.trace ++ evs) : events_since w w' = evs := by
  unfold events_since
  rw [h, List.drop_left]

theorem reset_trace (priv : crosslink_fpga_priv) (w : World) :
    (crosslink_fpga_reset priv w).2.trace
      = w.trace ++ reset_events priv (w.bus w.nxfer) (w.bus (w.nxfer + 1))
          (w.bus (w.nxfer + 2)) := by
  have e : w.nxfer + 1 + 1 = w.nxfer + 2 := rfl
  unfold crosslink_fpga_reset reset_events gpiod_set_value_cansleep i2c_transfer mdelay
  by_cases h0 : (w.bus w.nxfer).ret < 0
  · simp only [h0, if_true, List.append_assoc, List.append_nil, List.singleton_append]
  · by_cases h1 : (w.bus (w.nxfer + 1)).ret < 0
    · simp only [h0, h1, if_true, if_false, List.append_assoc, List.append_nil,
        List.singleton_append, List.cons_append, List.nil_append]
    · by_cases h2 : (w.bus (w.nxfer + 2)).ret < 0
      · simp only [e, h0, h1, h2, if_true, if_false, List.append_assoc, List.append_nil,
          List.singleton_append, List.cons_append, List.nil_append]
      · by_cases h3 : read_u32 (w.stale (w.nxfer + 2)) (w.bus (w.nxfer + 2)).rx = CROSSLINK_IDCODE
        · simp only [e, h0, h1, h2, h3, ne_eq, not_true_eq_false, if_true, if_false,
            List.append_assoc, List.append_nil, List.singleton_append, List.cons_append,
            List.nil_append]
        · simp only [e, h0, h1, h2, h3, ne_eq, not_false_eq_true, if_true, if_false,
            List.append_assoc, List.append_nil, List.singleton_append, List.cons_append,
            List.nil_append]

theorem reset_count_append (a b : List Event) :
    reset_count (a ++ b) = reset_count a + reset_count b := by
  induction a with
  | nil => rw [List.nil_append]; simp only [reset_count, Nat.zero_add]
  | cons e t ih =>
    rw [List.cons_append]
    cases e with
    | gpio v =>
      cases v with
      | zero => simp only [reset_count, ih]
      | succ n =>
        cases n with
        | zero => simp only [reset_count, ih]; omega
        | succ k => simp only [reset_count, ih]
    | mdelay _ => simp only [reset_count, ih]
    | xfer _ _ _ => simp only [reset_count, ih]
    | kzalloc _ _ => simp only [reset_count, ih]
    | kfree _ => simp only [reset_count, ih]
    | devm_kzalloc _ => simp only [reset_count, ih]

theorem reset_count_reset_events (priv : crosslink_fpga_priv) (r0 r1 r2 : Reply) :
    reset_count (reset_events priv r0 r1 r2) = 1 := by
  unfold reset_events
  by_cases h0 : r0.ret < 0
  · simp only [h0, if_true]; rfl
  · by_cases h1 : r1.ret < 0
    · simp only [h0, h1, if_true, if_false]; rfl
    · simp only [h0, h1, if_false]; rfl

theorem reset_retry_one (priv : crosslink_fpga_priv) (r : Int) (w : World) :
    reset_retry priv 1 r w = crosslink_fpga_reset priv w := by
  unfold reset_retry reset_retry
  by_cases h : (crosslink_fpga_reset priv w).1 = 0
  · simp only [h, if_true]
    exact Prod.ext h.symm rfl
  · simp only [h, if_false]

theorem reset_retry_two (priv : crosslink_fpga_priv) (r : Int) (w : World) :
    reset_retry priv 2 r w
      = (if (crosslink_fpga_reset priv w).1 = 0 then crosslink_fpga_reset priv w
        else crosslink_fpga_reset priv (crosslink_fpga_reset priv w).2) := by
  rw [reset_retry]
  by_cases h : (crosslink_fpga_reset priv w).1 = 0
  · simp only [h, if_true]
    exact Prod.ext h.symm rfl
  · simp only [h, if_false, reset_retry_one]

theorem retry_trace (priv : crosslink_fpga_priv) (r : Int) (w : World) :
    (reset_retry priv 2 r w).2.trace = w.trace ++ retry_events priv w := by
  rw [reset_retry_two]
  unfold retry_events
  by_cases h : (crosslink_fpga_reset priv w).1 = 0
  · simp only [h, if_true, List.append_nil, reset_trace]
  · simp only [h, if_false]
    rw [reset_trace, reset_trace, List.append_assoc]

theorem reset_count_retry_events (priv : crosslink_fpga_priv) (w : World) :
    reset_count (retry_events priv w)
      = (if (crosslink_fpga_reset priv w).1 = 0 then 1 else 2) := by
  unfold retry_events
  rw [reset_count_append, reset_count_reset_events]
  by_cases h : (crosslink_fpga_reset priv w).1 = 0
  · simp only [h, if_true]; rfl
  · simp only [h, if_false, reset_count_reset_events]

theorem write_init_eq (priv : crosslink_fpga_priv) (w : World) :
    (crosslink_fpga_ops_write_init priv w).1
      = (if (reset_retry priv 2 0 w).1 ≠ 0 then (reset_retry priv 2 0 w).1
        else if ((reset_retry priv 2 0 w).2.bus (reset_retry priv 2 0 w).2.nxfer).ret < 0
          then ((reset_retry priv 2 0 w).2.bus (reset_retry priv 2 0 w).2.nxfer).ret
        else 0) ∧
    (crosslink_fpga_ops_write_init priv w).2.trace
      = (reset_retry priv 2 0 w).2.trace ++
        (if (reset_retry priv 2 0 w).1 ≠ 0 then []
          else erase_events priv (reset_retry priv 2 0 w).2) := by
  unfold crosslink_fpga_ops_write_init CROSSLINK_RESET_RETRY_CNT erase_events
    i2c_transfer mdelay
  by_cases h : (reset_retry priv 2 0 w).1 = 0
  · have hn : ¬ ((reset_retry priv 2 0 w).1 < 0) := by omega
    by_cases he : ((reset_retry priv 2 0 w).2.bus (reset_retry priv 2 0 w).2.nxfer).ret < 0
    · simp only [h, he, ne_eq, not_true_eq_false, lt_self_iff_false, if_true, if_false,
        List.append_assoc, List.append_nil, List.singleton_append, and_self]
    · simp only [h, he, ne_eq, not_true_eq_false, lt_self_iff_false, if_false,
        List.append_assoc, List.singleton_append, List.cons_append, List.nil_append,
        and_self]
  · simp only [h, ne_eq, not_false_eq_true, if_true, List.append_nil, and_self]

theorem probe_eq (client : i2c_client) (w : World) :
    ∃ evs, (crosslink_fpga_probe client w).2.trace = w.trace ++ evs ∧
      reset_count evs ≤ 2 := by
  unfold crosslink_fpga_probe CROSSLINK_RESET_RETRY_CNT devm_kzalloc
  by_cases hp : w.heap w.nalloc = true
  · by_cases hg : w.gpiod_get < 0
    · refine ⟨[Event.devm_kzalloc (some w.nalloc)], ?_, Nat.zero_le 2⟩
      simp only [hp, hg, if_true, reduceCtorEq, if_false]
    · simp only [hp, hg, if_true, reduceCtorEq, if_false]
      refine ⟨[Event.devm_kzalloc (some w.nalloc)] ++
        retry_events { dev := client, bistream_loaded := false }
          { w with nalloc := w.nalloc + 1,
                   trace := w.trace ++ [Event.devm_kzalloc (some w.nalloc)] }, ?_, ?_⟩
      · split_ifs <;> rw [retry_trace, List.append_assoc]
      · rw [reset_count_append, reset_count_retry_events]
        split_ifs <;> simp only [reset_count] <;> omega
  · refine ⟨[Event.devm_kzalloc none], ?_, Nat.zero_le 2⟩
    simp only [hp, if_true, if_false, Bool.false_eq_true]

theorem probe_ret (client : i2c_client) (w : World)
    (hp : (devm_kzalloc w).1 ≠ none) (hg : ¬ w.gpiod_get < 0)
    (hr : (reset_retry { dev := client, bistream_loaded := false } 2 0
      (devm_kzalloc w).2).1 ≠ 0) :
    (crosslink_fpga_probe client w).1
      = (reset_retry { dev := client, bistream_loaded := false } 2 0
          (devm_kzalloc w).2).1 := by
  unfold crosslink_fpga_probe CROSSLINK_RESET_RETRY_CNT
  have hg2 : (devm_kzalloc w).2.gpiod_get = w.gpiod_get := rfl
  simp only [hp, hg2, hg, hr, ne_eq, not_false_eq_true, if_true, if_false]

theorem probe_run (client : i2c_client) (w : World)
    (hp : (devm_kzalloc w).1 ≠ none) (hg : ¬ w.gpiod_get < 0) :
    crosslink_fpga_probe client w
      = (if (reset_retry { dev := client, bistream_loaded := false } 2 0
            (devm_kzalloc w).2).1 ≠ 0
          then (reset_retry { dev := client, bistream_loaded := false } 2 0
            (devm_kzalloc w).2).1
          else (reset_retry { dev := client, bistream_loaded := false } 2 0
            (devm_kzalloc w).2).2.mgr_register,
        (reset_retry { dev := client, bistream_loaded := false } 2 0
          (devm_kzalloc w).2).2) := by
  unfold crosslink_fpga_probe CROSSLINK_RESET_RETRY_CNT
  have hg2 : (devm_kzalloc w).2.gpiod_get = w.gpiod_get := rfl
  by_cases hr : (reset_retry { dev := client, bistream_loaded := false } 2 0
      (devm_kzalloc w).2).1 = 0
  · simp only [hp, hg2, hg, hr, ne_eq, not_true_eq_false, if_false]
  · simp only [hp, hg2, hg, hr, ne_eq, not_false_eq_true, if_true, if_false]

theorem probe_events (client : i2c_client) (w : World)
    (hp : (devm_kzalloc w).1 ≠ none) (hg : ¬ w.gpiod_get < 0) :
    events_since w (crosslink_fpga_probe client w).2
      = [Event.devm_kzalloc (devm_kzalloc w).1] ++
        retry_events { dev := client, bistream_loaded := false } (devm_kzalloc w).2 := by
  apply events_since_append
  rw [probe_run client w hp hg]
  show (reset_retry _ 2 0 (devm_kzalloc w).2).2.trace = _
  rw [retry_trace, ← List.append_assoc]
  rfl

theorem write_init_events (priv : crosslink_fpga_priv) (w : World) :
    events_since w (crosslink_fpga_ops_write_init priv w).2
      = retry_events priv w ++
        (if (reset_retry priv 2 0 w).1 ≠ 0 then []
          else erase_events priv (reset_retry priv 2 0 w).2) := by
  apply events_since_append
  rw [(write_init_eq priv w).2, retry_trace, List.append_assoc]

theorem reset_count_erase (priv : crosslink_fpga_priv) (w : World) :
    reset_count (if (reset_retry priv 2 0 w).1 ≠ 0 then []
      else erase_events priv (reset_retry priv 2 0 w).2) = 0 := by
  unfold erase_events
  split_ifs <;> rfl

/-- C7: the loop around `crosslink_fpga_reset` is bounded at
CROSSLINK_RESET_RETRY_CNT = 2: the loop, write-init and probe perform at most
2 reset sequences.  It stops at the first success: when the 1st attempt
succeeds there is 1 reset sequence.  When the 1st attempt fails and the 2nd
succeeds, the loop bounded at 2 returns 0 after exactly 2 reset sequences and
the loop bounded at 1 returns the failure of the single attempt.  When both
attempts fail, the loop, write-init and probe return the error of the 2nd,
last, attempt.  Write-init and probe themselves run the loop: the events of
write-init are those of the loop followed by the erase phase, those of probe
are the allocation of the private data followed by those of the loop, with 1
reset sequence when the 1st attempt succeeds and 2 when it fails; probe
performs none when the allocation or the reset GPIO fails. -/
theorem reset_retry_policy (priv : crosslink_fpga_priv) (w : World) :
    CROSSLINK_RESET_RETRY_CNT = 2 ∧
    reset_count (events_since w (reset_retry priv 2 0 w).2) ≤ 2 ∧
    reset_count (events_since w (crosslink_fpga_ops_write_init priv w).2) ≤ 2 ∧
    reset_count (events_since w (crosslink_fpga_probe priv.dev w).2) ≤ 2 ∧
    ((crosslink_fpga_reset priv w).1 = 0 →
      (reset_retry priv 2 0 w).1 = 0 ∧
      reset_count (events_since w (reset_retry priv 2 0 w).2) = 1) ∧
    ((crosslink_fpga_reset priv w).1 ≠ 0 →
      (crosslink_fpga_reset priv (crosslink_fpga_reset priv w).2).1 = 0 →
      (reset_retry priv 2 0 w).1 = 0 ∧
      reset_count (events_since w (reset_retry priv 2 0 w).2) = 2 ∧
      (reset_retry priv 1 0 w).1 ≠ 0 ∧
      reset_count (events_since w (reset_retry priv 1 0 w).2) = 1) ∧
    ((crosslink_fpga_reset priv w).1 ≠ 0 →
      (crosslink_fpga_reset priv (crosslink_fpga_reset priv w).2).1 ≠ 0 →
      (reset_retry priv 2 0 w).1
        = (crosslink_fpga_reset priv (crosslink_fpga_reset priv w).2).1 ∧
      (crosslink_fpga_ops_write_init priv w).1
        = (crosslink_fpga_reset priv (crosslink_fpga_reset priv w).2).1 ∧
      reset_count (events_since w (reset_retry priv 2 0 w).2) = 2) ∧
    ((devm_kzalloc w).1 ≠ none → ¬ w.gpiod_get < 0 →
      (reset_retry { dev := priv.dev, bistream_loaded := false } 2 0
        (devm_kzalloc w).2).1 ≠ 0 →
      (crosslink_fpga_probe priv.dev w).1
        = (reset_retry { dev := priv.dev, bistream_loaded := false } 2 0
            (devm_kzalloc w).2).1) ∧
    events_since w (crosslink_fpga_ops_write_init priv w).2
      = events_since w (reset_retry priv 2 0 w).2 ++
        (if (reset_retry priv 2 0 w).1 ≠ 0 then []
          else erase_events priv (reset_retry priv 2 0 w).2) ∧
    events_since w (reset_retry priv 2 0 w).2
      = events_since w (crosslink_fpga_reset priv w).2 ++
        (if (crosslink_fpga_reset priv w).1 = 0 then []
          else events_since (crosslink_fpga_reset priv w).2
            (crosslink_fpga_reset priv (crosslink_fpga_reset priv w).2).2) ∧
    ((crosslink_fpga_reset priv w).1 = 0 →
      reset_count (events_since w (crosslink_fpga_ops_write_init priv w).2) = 1) ∧
    ((crosslink_fpga_reset priv w).1 ≠ 0 →
      reset_count (events_since w (crosslink_fpga_ops_write_init priv w).2) = 2) ∧
    ((devm_kzalloc w).1 ≠ none → ¬ w.gpiod_get < 0 →
      events_since w (crosslink_fpga_probe priv.dev w).2
        = [Event.devm_kzalloc (devm_kzalloc w).1] ++
          events_since (devm_kzalloc w).2
            (reset_retry { dev := priv.dev, bistream_loaded := false } 2 0
              (devm_kzalloc w).2).2) ∧
    ((devm_kzalloc w).1 ≠ none → ¬ w.gpiod_get < 0 →
      (crosslink_fpga_reset { dev := priv.dev, bistream_loaded := false }
        (devm_kzalloc w).2).1 = 0 →
      reset_count (events_since w (crosslink_fpga_probe priv.dev w).2) = 1 ∧
      (crosslink_fpga_probe priv.dev w).1
        = (crosslink_fpga_reset { dev := priv.dev, bistream_loaded := false }
            (devm_kzalloc w).2).2.mgr_register) ∧
    ((devm_kzalloc w).1 ≠ none → ¬ w.gpiod_get < 0 →
      (crosslink_fpga_reset { dev := priv.dev, bistream_loaded := false }
        (devm_kzalloc w).2).1 ≠ 0 →
      reset_count (events_since w (crosslink_fpga_probe priv.dev w).2) = 2) ∧
    ((devm_kzalloc w).1 = none ∨ w.gpiod_get < 0 →
      reset_count (events_since w (crosslink_fpga_probe priv.dev w).2) = 0) := by
  have hev := events_since_append w _ _ (retry_trace priv 0 w)
  have hcnt := reset_count_retry_events priv w
  have h2 := reset_retry_two priv 0 w
  have h1 := reset_retry_one priv 0 w
  have hwi := write_init_eq priv w
  have hwe := write_init_events priv w
  have hce := reset_count_erase priv w
  refine ⟨rfl, ?_, ?_, ?_, ?_, ?_, ?_, probe_ret priv.dev w, ?_, ?_, ?_, ?_, ?_, ?_, ?_, ?_⟩
  rotate_left 6
  · rw [hwe, hev]
  · rw [hev]
    unfold retry_events
    rw [events_since_append w _ _ (reset_trace priv w)]
    by_cases h : (crosslink_fpga_reset priv w).1 = 0
    · simp only [h, if_true]
    · simp only [h, if_false]
      rw [events_since_append _ _ _ (reset_trace priv (crosslink_fpga_reset priv w).2)]
  · intro h
    rw [hwe, reset_count_append, hcnt, hce]
    simp only [h, if_true]
  · intro h
    rw [hwe, reset_count_append, hcnt, hce]
    simp only [h, if_false]
  · intro hp hg
    rw [probe_events priv.dev w hp hg, events_since_append _ _ _ (retry_trace _ 0 _)]
  · intro hp hg h
    rw [probe_events priv.dev w hp hg, reset_count_append, reset_count_retry_events,
      probe_run priv.dev w hp hg, reset_retry_two]
    simp only [h, if_true, ne_eq, not_true_eq_false, if_false]
    exact ⟨rfl, trivial⟩
  · intro hp hg h
    rw [probe_events priv.dev w hp hg, reset_count_append, reset_count_retry_events]
    simp only [h, if_false]
    rfl
  · intro h
    unfold crosslink_fpga_probe
    by_cases hp : (devm_kzalloc w).1 = none
    · simp only [hp, if_true]
      rw [events_since_append w _ [Event.devm_kzalloc (devm_kzalloc w).1] rfl]
      rfl
    · have hg : w.gpiod_get < 0 := by
        rcases h with h | h
        · exact absurd h hp
        · exact h
      have hg2 : (devm_kzalloc w).2.gpiod_get = w.gpiod_get := rfl
      simp only [hp, hg2, hg, if_true, if_false]
      rw [events_since_append w _ [Event.devm_kzalloc (devm_kzalloc w).1] rfl]
      rfl
  · rw [hev, hcnt]
    split_ifs <;> omega
  · have ht : (crosslink_fpga_ops_write_init priv w).2.trace
        = w.trace ++ (retry_events priv w ++
          (if (reset_retry priv 2 0 w).1 ≠ 0 then []
            else erase_events priv (reset_retry priv 2 0 w).2)) := by
      rw [hwi.2, retry_trace, List.append_assoc]
    rw [events_since_append w _ _ ht, reset_count_append, hcnt]
    have he : reset_count (if (reset_retry priv 2 0 w).1 ≠ 0 then []
        else erase_events priv (reset_retry priv 2 0 w).2) = 0 := by
      unfold erase_events
      split_ifs <;> rfl
    rw [he]
    split_ifs <;> omega
  · obtain ⟨evs, he, hc⟩ := probe_eq priv.dev w
    rw [events_since_append w _ _ he]
    exact hc
  · intro h
    rw [hev, hcnt, h2]
    simp only [h, if_true, and_self]
  · intro hf hs
    rw [hev, hcnt, h2, h1, events_since_append w _ _ (reset_trace priv w),
      reset_count_reset_events]
    simp only [hf, if_false, hs, ne_eq, not_false_eq_true, and_self]
  · intro hf hs
    rw [hev, hcnt, hwi.1, h2]
    simp only [hf, if_false, hs, ne_eq, not_false_eq_true, if_true, and_self]

theorem reset_retry_policy_witness :
    ((reset_retry pv 2 0 flaky_world).1 = 0 ∧
      reset_count (events_since flaky_world (reset_retry pv 2 0 flaky_world).2) = 2 ∧
      (reset_retry pv 1 0 flaky_world).1 ≠ 0 ∧
      reset_count (events_since flaky_world (reset_retry pv 1 0 flaky_world).2) = 1) ∧
    ((reset_retry pv 2 0 good_world).1 = 0 ∧
      reset_count (events_since good_world (reset_retry pv 2 0 good_world).2) = 1) ∧
    (crosslink_fpga_ops_write_init pv (const_world sentinel_reply)).1
      = (crosslink_fpga_reset pv
          (crosslink_fpga_reset pv (const_world sentinel_reply)).2).1 ∧
    reset_count (events_since flaky_world
      (crosslink_fpga_ops_write_init pv flaky_world).2) = 2 ∧
    reset_count (events_since good_world
      (crosslink_fpga_ops_write_init pv good_world).2) = 1 ∧
    reset_count (events_since flaky_world (crosslink_fpga_probe pv.dev flaky_world).2) = 2 ∧
    reset_count (events_since good_world (crosslink_fpga_probe pv.dev good_world).2) = 1 :=
  ⟨(reset_retry_policy pv flaky_world).2.2.2.2.2.1 (by decide) (by decide),
    (reset_retry_policy pv good_world).2.2.2.2.1 (by decide),
    ((reset_retry_policy pv (const_world sentinel_reply)).2.2.2.2.2.2.1
      (by decide) (by decide)).2.1,
    (reset_retry_policy pv flaky_world).2.2.2.2.2.2.2.2.2.2.2.1 (by decide),
    (reset_retry_policy pv good_world).2.2.2.2.2.2.2.2.2.2.1 (by decide),
    (reset_retry_policy pv flaky_world).2.2.2.2.2.2.2.2.2.2.2.2.2.2.1
      (by decide) (by decide) (by decide),
    ((reset_retry_policy pv good_world).2.2.2.2.2.2.2.2.2.2.2.2.2.1
      (by decide) (by decide) (by decide)).1⟩

/-! ## Evaluations of the erase phase, of a whole load and of the buffers -/

set_option maxRecDepth 100000

/-- Whatever the transport does, once the reset phase of write-init has
succeeded the only transfer of the erase phase is ISC_ERASE. -/
theorem erase_phase_transfers (priv : crosslink_fpga_priv) (w : World)
    (h : (reset_retry priv 2 0 w).1 = 0) :
    transfers (events_since (reset_retry priv 2 0 w).2
        (crosslink_fpga_ops_write_init priv w).2)
      = [[write_msg priv.dev isc_erase]] := by
  have hwi := (write_init_eq priv w).2
  simp only [h, ne_eq, not_true_eq_false, if_false] at hwi
  rw [events_since_append _ _ _ hwi]
  unfold erase_events
  split_ifs <;> rfl

/-- C5, evaluation at the failing input: with a transport that always
succeeds and an identity read returning 0x43002C01, the reset phase succeeds,
write-init returns 0, and the erase phase transmits the single frame
ISC_ERASE (0E 01 00 00); over the whole call the frame ISC_ENABLE (C6 00 00)
is transmitted once, by the reset sequence, before the identity read. -/
theorem erase_phase_sends_only_isc_erase :
    (reset_retry pv CROSSLINK_RESET_RETRY_CNT 0 good_world).1 = 0 ∧
    (crosslink_fpga_ops_write_init pv good_world).1 = 0 ∧
    transfers (events_since (reset_retry pv CROSSLINK_RESET_RETRY_CNT 0 good_world).2
        (crosslink_fpga_ops_write_init pv good_world).2)
      = [[{ addr := 0x40, flags := 0, len := 4, buf := [0x0E, 0x01, 0x00, 0x00] }]] ∧
    transfers (crosslink_fpga_ops_write_init pv good_world).2.trace
      = [[{ addr := 0x40, flags := 0, len := 4, buf := [0xA4, 0xC6, 0xF4, 0x8A] }],
         [{ addr := 0x40, flags := 0, len := 3, buf := [0xC6, 0x00, 0x00] }],
         [{ addr := 0x40, flags := 0, len := 4, buf := [0xE0, 0x00, 0x00, 0x00] },
          { addr := 0x40, flags := 1, len := 4, buf := [] }],
         [{ addr := 0x40, flags := 0, len := 4, buf := [0x0E, 0x01, 0x00, 0x00] }]] := by
  decide

/-- C6, evaluation at the failing input: with a transport that always
succeeds, an identity read returning 0x43002C01 and a status read with DONE
set, write-init, write of 1024 zero bytes and write-complete all return 0,
and the transfers observed are, in order, ACTIVATE, ISC_ENABLE, READ_IDCODE
with its read, ISC_ERASE, LSC_INIT, the burst (one message of 1028 bytes),
LSC_READ_STATUS with its read, ISC_DISABLE: 8 transfers, with no ISC_ENABLE
between the identity read and ISC_ERASE. -/
theorem load_of_1024_zero_bytes :
    (load_image pv (List.replicate 1024 0) good_world).1 = (0, 0, 0) ∧
    transfers (load_image pv (List.replicate 1024 0) good_world).2.trace
      = [[write_msg cl activation_msg],
         [write_msg cl isc_enable],
         [write_msg cl idcode_pub, read_msg cl 4],
         [write_msg cl isc_erase],
         [write_msg cl lsc_init],
         [{ addr := 0x40, flags := 0, len := 1028,
            buf := lsc_bitstream_burst ++ List.replicate 1024 0 }],
         [write_msg cl lsc_read_status, read_msg cl 4],
         [write_msg cl isc_disable]] ∧
    (transfers (load_image pv (List.replicate 1024 0) good_world).2.trace).length = 8 := by
  with_unfolding_all decide

/-- C8, evaluation at the failing input: with an empty image, every
allocation and every transfer succeeding and DONE set, the call returns 0
having obtained 3 buffers and released 2; when the LSC_INIT transfer fails
(-ENXIO), the call returns that error having obtained 3 buffers and released
none. -/
theorem write_leaves_buffers_allocated :
    (crosslink_fpga_ops_write pv [] 0 (const_world done_reply)).1 = 0 ∧
    alloc_count (events_since (const_world done_reply) (crosslink_fpga_ops_write pv [] 0 (const_world done_reply)).2)
      = 3 ∧
    free_count (events_since (const_world done_reply) (crosslink_fpga_ops_write pv [] 0 (const_world done_reply)).2)
      = 2 ∧
    (crosslink_fpga_ops_write pv [] 0 (const_world nack_reply)).1 = -6 ∧
    alloc_count (events_since (const_world nack_reply)
        (crosslink_fpga_ops_write pv [] 0 (const_world nack_reply)).2) = 3 ∧
    free_count (events_since (const_world nack_reply)
        (crosslink_fpga_ops_write pv [] 0 (const_world nack_reply)).2) = 0 := by
  with_unfolding_all decide

end Crosslink
